import Mathlib

/-!
Verification development for the `bevy_keith` 2D canvas renderer
(primitive binning, batching and encoding pipeline).

The Rust source is shallowly embedded:
* `f32` coordinate arithmetic is modelled over `ℚ`.  Every concrete input
  used in the theorems below is a small dyadic rational on which all the
  `f32` operations the source performs (addition, subtraction,
  multiplication, division by a power of two, `min`/`max`/`clamp`,
  `floor`/`ceil`, equality comparison) are exact, so the rational model
  agrees bit-for-bit with the machine computation there.
* machine integers (`u32`, `i32`, `usize`) are modelled as `Nat` / `Int`;
  the quantities involved (tile indices, buffer offsets, row counts) stay
  far below the wrap-around range in all statements.
* fallible operations (slice indexing, `assert!`) return `Option`.
-/

/-- 2D vector over exact rationals (model of `glam::Vec2`). -/
structure V2 where
  x : ℚ
  y : ℚ
deriving DecidableEq

/-- `glam` clamp: `self.max(min).min(max)`, componentwise on scalars. -/
def qclamp (v lo hi : ℚ) : ℚ :=
  min (max v lo) hi

/-- Axis-aligned bounding box (model of `bevy::math::bounding::Aabb2d`). -/
structure Aabb2d where
  min : V2
  max : V2
deriving DecidableEq

/-! ### Packed primitive index (`canvas.rs`, `PackedPrimitiveIndex`) -/

/-- Kind of primitives understood by the GPU shader (`GpuPrimitiveKind`). -/
inductive GpuPrimitiveKind
  | rect
  | glyph
  | line
  | quarterPie
deriving DecidableEq

/-- The `repr(u8)` discriminant of `GpuPrimitiveKind`
(`Rect = 0, Glyph = 1, Line = 2, QuarterPie = 3`), as cast to `u32`. -/
def GpuPrimitiveKind.toU32 : GpuPrimitiveKind → Nat
  | .rect => 0
  | .glyph => 1
  | .line => 2
  | .quarterPie => 3

/-- Inverse of `GpuPrimitiveKind.toU32` on the tag values `0..3` (the decoding
performed by the shader on the 2-bit kind field). -/
def GpuPrimitiveKind.ofU32 : Nat → GpuPrimitiveKind
  | 0 => .rect
  | 1 => .glyph
  | 2 => .line
  | _ => .quarterPie

/-- `PackedPrimitiveIndex::new`:
`(index & 0x07FF_FFFF) | (kind as u32) << 28 | ((textured as u32) << 31) | ((bordered as u32) << 27)`.
The resulting `u32` is represented by its value as a `Nat` (always `< 2^32`
because the four fields occupy disjoint bit ranges below bit 32). -/
def packedPrimitiveIndex_new (index : Nat) (kind : GpuPrimitiveKind)
    (textured bordered : Bool) : Nat :=
  let t := (cond textured 1 0) <<< 31
  let b := (cond bordered 1 0) <<< 27
  (index &&& 0x07FFFFFF) ||| (kind.toU32 <<< 28) ||| t ||| b

/-- Bit-field extraction from a packed index: low 27 bits (row index). -/
def unpackIndex (v : Nat) : Nat := v &&& 0x07FFFFFF

/-- Bit-field extraction from a packed index: bit 27 (bordered flag). -/
def unpackBordered (v : Nat) : Nat := (v >>> 27) &&& 1

/-- Bit-field extraction from a packed index: bits 28-29 (kind tag). -/
def unpackKind (v : Nat) : Nat := (v >>> 28) &&& 3

/-- Bit-field extraction from a packed index: bit 30 (reserved). -/
def unpackBit30 (v : Nat) : Nat := (v >>> 30) &&& 1

/-- Bit-field extraction from a packed index: bit 31 (textured flag). -/
def unpackTextured (v : Nat) : Nat := (v >>> 31) &&& 1

/-! ### Tiles (`canvas.rs`, `struct Tiles`) -/

/-- Per-tile `(offset, count)` entry (`OffsetAndCount`, two `u32`). -/
structure OffsetAndCount where
  offset : Nat
  count : Nat
deriving DecidableEq

/-- Scratch entry pushed by the binning loop (`struct AssignedTile`):
an `i32` tile index together with the packed primitive index. -/
structure AssignedTile where
  tile_index : Int
  prim_index : Nat
deriving DecidableEq

/-- A prepared sub-primitive (`render/mod.rs`, `struct PreparedPrimitive`):
AABB in device pixels plus the packed primitive index. -/
structure PreparedPrimitive where
  aabb : Aabb2d
  prim_index : Nat
deriving DecidableEq

/-- `Tiles::update_size`: tile size is forced to 8×8 and the grid dimensions
are `(screen_size.as_vec2() / 8).ceil().as_uvec2()`, i.e. `⌈w/8⌉ × ⌈h/8⌉`
(exact for every screen size whose `u32 → f32` conversion is exact). -/
def update_size_dimensions (screen_size : Nat × Nat) : Nat × Nat :=
  ((⌈(screen_size.1 : ℚ) / 8⌉).toNat, (⌈(screen_size.2 : ℚ) / 8⌉).toNat)

/-- X component of `(prim.aabb.min.clamp(ZERO, screen_size) / tile_size).floor()`. -/
def uvMinX (a : Aabb2d) (screen : V2) : Int :=
  ⌊qclamp a.min.x 0 screen.x / 8⌋

/-- Y component of the clamped, floored AABB min corner, in tile units. -/
def uvMinY (a : Aabb2d) (screen : V2) : Int :=
  ⌊qclamp a.min.y 0 screen.y / 8⌋

/-- X component of `(prim.aabb.max.clamp(ZERO, screen_size) / tile_size).ceil()`
before the shared-edge adjustment. -/
def uvMaxRawX (a : Aabb2d) (screen : V2) : Int :=
  ⌈qclamp a.max.x 0 screen.x / 8⌉

/-- Y component of the clamped, ceiled AABB max corner, before adjustment. -/
def uvMaxRawY (a : Aabb2d) (screen : V2) : Int :=
  ⌈qclamp a.max.y 0 screen.y / 8⌉

/-- Effective inclusive max tile column: the raw ceiled value, minus one when
`prim.aabb.max.x == tile_size.x * uv_max.x as f32` (shared-edge exclusion). -/
def uvMaxX (a : Aabb2d) (screen : V2) : Int :=
  let m := uvMaxRawX a screen
  if a.max.x = 8 * (m : ℚ) then m - 1 else m

/-- Effective inclusive max tile row (shared-edge exclusion on the y axis). -/
def uvMaxY (a : Aabb2d) (screen : V2) : Int :=
  let m := uvMaxRawY a screen
  if a.max.y = 8 * (m : ℚ) then m - 1 else m

/-- The list `lo, lo+1, …, hi` (the Rust inclusive range `lo..=hi` over `i32`);
empty when `hi < lo`. -/
def irange (lo hi : Int) : List Int :=
  (List.range (hi + 1 - lo).toNat).map fun i : Nat => lo + (i : Int)

/-- The `AssignedTile` entries pushed for one prepared primitive by the
binning loop of `Tiles::assign_to_tiles`: rows outer, columns inner,
`tile_index = ty * dimensions.x + tx`. -/
def tileEntries (dims : Nat × Nat) (screen : V2) (p : PreparedPrimitive) :
    List AssignedTile :=
  (irange (uvMinY p.aabb screen) (uvMaxY p.aabb screen)).flatMap fun ty =>
    (irange (uvMinX p.aabb screen) (uvMaxX p.aabb screen)).map fun tx =>
      ⟨ty * (dims.1 : Int) + tx, p.prim_index⟩

/-- Key order used to sort the scratch list (`sort_by_key(|at| at.tile_index)`). -/
def tileLE (a b : AssignedTile) : Prop :=
  a.tile_index ≤ b.tile_index

instance : DecidableRel tileLE := fun a b =>
  inferInstanceAs (Decidable (a.tile_index ≤ b.tile_index))

instance : IsTotal AssignedTile tileLE :=
  ⟨fun a b => Int.le_total a.tile_index b.tile_index⟩

instance : IsTrans AssignedTile tileLE :=
  ⟨fun _ _ _ h h' => le_trans h h'⟩

/-- Rust's `sort_by_key` is a stable sort by the key; any stable sort by
`tile_index` produces the same list, so it is modelled by the (stable)
insertion sort. -/
def sortAssigned (l : List AssignedTile) : List AssignedTile :=
  List.insertionSort tileLE l

/-- The offset/count construction loop of `Tiles::assign_to_tiles`, run on the
sorted scratch list.  State: `ti` (last seen tile index, starts at `-1`),
`offset`/`count` (current run), `plen` (current length of `Tiles::primitives`).
Returns the `offset_and_count` entries pushed and the primitive indices pushed.
Empty filler entries re-use the stale `offset` value exactly as the source
does (their `count` is 0). -/
def binLoop (ocExtra : Nat) :
    Int → Nat → Nat → Nat → List AssignedTile →
      List OffsetAndCount × List Nat
  | ti, offset, count, _plen, [] =>
    ((if 0 < count then [⟨offset, count⟩] else []) ++
      List.replicate ((ocExtra : Int) - (ti + 1)).toNat ⟨offset, 0⟩, [])
  | ti, offset, count, plen, a :: rest =>
    if a.tile_index = ti then
      let r := binLoop ocExtra ti offset (count + 1) (plen + 1) rest
      (r.1, a.prim_index :: r.2)
    else
      let pre := (if 0 < count then [⟨offset, count⟩] else []) ++
        List.replicate (a.tile_index - (ti + 1)).toNat ⟨offset, 0⟩
      let r := binLoop ocExtra a.tile_index plen 1 (plen + 1) rest
      (pre ++ r.1, a.prim_index :: r.2)

/-- Result of one `Tiles::assign_to_tiles` call starting from empty buffers. -/
structure TilesResult where
  primitives : List Nat
  offset_and_count : List OffsetAndCount
deriving DecidableEq

/-- `Tiles::assign_to_tiles` on empty `primitives`/`offset_and_count` buffers:
push the per-primitive tile entries, stable-sort them by tile index, then run
the offset/count construction loop with `oc_extra = dimensions.x * dimensions.y`. -/
def assign_to_tiles (dims : Nat × Nat) (prims : List PreparedPrimitive)
    (screen : V2) : TilesResult :=
  let assigned := prims.flatMap (tileEntries dims screen)
  let sorted := sortAssigned assigned
  let r := binLoop (dims.1 * dims.2) (-1) 0 0 0 sorted
  ⟨r.2, r.1⟩

/-! ### Image aspect fitting (`canvas.rs`, free functions) -/

/-- `aspect_width`: `size.x.max(0.) / size.y.max(1.) * content_height.max(0.)`. -/
def aspect_width (size : V2) (content_height : ℚ) : ℚ :=
  max size.x 0 / max size.y 1 * max content_height 0

/-- `aspect_height`: `size.y.max(0.) / size.x.max(1.) * content_width.max(0.)`. -/
def aspect_height (size : V2) (content_width : ℚ) : ℚ :=
  max size.y 0 / max size.x 1 * max content_width 0

/-- `fit_width`: width fits the content, height stretches or keeps aspect. -/
def fit_width (size content_size : V2) (stretch_height : Bool) : V2 :=
  ⟨content_size.x,
    if stretch_height then content_size.y else aspect_height size content_size.x⟩

/-- `fit_height`: height fits the content, width stretches or keeps aspect. -/
def fit_height (size content_size : V2) (stretch_width : Bool) : V2 :=
  ⟨if stretch_width then content_size.x else aspect_width size content_size.y,
    content_size.y⟩

/-- `fit_any`: compare aspect ratios and fit by height or by width so that the
returned rectangle covers the content. -/
def fit_any (size content_size : V2) (stretch_other : Bool) : V2 :=
  let aspect := max size.x 0 / max size.y 1
  let content_aspect := max content_size.x 0 / max content_size.y 1
  if content_aspect ≤ aspect then fit_height size content_size stretch_other
  else fit_width size content_size stretch_other

/-! ### Primitive batches (`render/mod.rs`, `PrimitiveBatch`) -/

/-- Batch of primitives sharing the same canvas and texture.
`image_handle_id : Option Nat` models `AssetId<Image>` with `none` standing
for `AssetId::<Image>::invalid()` (the untextured wildcard);
`canvas_entity : Option Nat` models `Entity` with `none` standing for
`Entity::PLACEHOLDER`.  The GPU bind-group field is irrelevant to batch
boundary decisions and is omitted. -/
structure PrimitiveBatch where
  image_handle_id : Option Nat
  canvas_entity : Option Nat
deriving DecidableEq

/-- `PrimitiveBatch::invalid()`: invalid handle and placeholder entity. -/
def PrimitiveBatch.invalid : PrimitiveBatch :=
  ⟨none, none⟩

/-- `PrimitiveBatch::is_empty()`: the canvas entity is the placeholder. -/
def PrimitiveBatch.is_empty (b : PrimitiveBatch) : Bool :=
  b.canvas_entity == none

/-- `PrimitiveBatch::is_handle_compatible()`: the handle is compatible if
either side is the invalid (untextured) handle or both are equal. -/
def PrimitiveBatch.is_handle_compatible (b : PrimitiveBatch)
    (handle : Option Nat) : Bool :=
  handle == none || b.image_handle_id == none || b.image_handle_id == handle

/-- `PrimitiveBatch::try_merge()`: merge succeeds iff the handle is compatible
and the canvas entities are equal; on success an invalid (wildcard) handle is
overwritten by the incoming one.  Returns the `bool` result together with the
(possibly mutated) batch. -/
def PrimitiveBatch.try_merge (b other : PrimitiveBatch) :
    Bool × PrimitiveBatch :=
  if b.is_handle_compatible other.image_handle_id &&
      (b.canvas_entity == other.canvas_entity) then
    let b' := if b.image_handle_id == none then
        { b with image_handle_id := other.image_handle_id }
      else b
    (true, b')
  else
    (false, b)

/-- State of the incremental batching loop in `prepare_primitives`:
the current batch, the `prepared_primitives` buffer (with payloads of an
arbitrary type `α`), the `pp_offset` marker, and the emitted batches, each
paired with the slice of `prepared_primitives` it covers. -/
structure BatchState (α : Type) where
  current : PrimitiveBatch
  prepared : List α
  pp_offset : Nat
  emitted : List (PrimitiveBatch × List α)

/-- One step of the sub-primitive loop of `prepare_primitives`: build the
candidate batch for this sub-primitive's image handle, try to merge it into
the current batch; on failure flush the current batch (unless it is the
initial empty placeholder), covering `prepared_primitives[pp_offset..]`, and
start a new batch.  In every case the sub-primitive's payload is then pushed
onto `prepared_primitives`. -/
def batchStep (entity : Nat) (s : BatchState α) (sub : Option Nat × α) :
    BatchState α :=
  if (s.current.try_merge ⟨sub.1, some entity⟩).1 then
    { s with current := (s.current.try_merge ⟨sub.1, some entity⟩).2,
             prepared := s.prepared ++ [sub.2] }
  else if s.current.is_empty then
    { s with current := ⟨sub.1, some entity⟩, prepared := s.prepared ++ [sub.2] }
  else
    { current := ⟨sub.1, some entity⟩,
      prepared := s.prepared ++ [sub.2],
      pp_offset := s.prepared.length,
      emitted := s.emitted ++ [(s.current, s.prepared.drop s.pp_offset)] }

/-- After the input stream ends, `prepare_primitives` outputs the last batch
if it is not the empty placeholder. -/
def batchFinish (s : BatchState α) : List (PrimitiveBatch × List α) :=
  if s.current.is_empty then s.emitted
  else s.emitted ++ [(s.current, s.prepared.drop s.pp_offset)]

/-- The whole batching pass of `prepare_primitives` for one canvas (entity
`entity`), over the flattened sub-primitive stream: each stream element is the
sub-primitive's image handle and its prepared payload. -/
def batchRun (entity : Nat) (subs : List (Option Nat × α)) :
    List (PrimitiveBatch × List α) :=
  batchFinish (subs.foldl (batchStep entity) ⟨.invalid, [], 0, []⟩)

/-! ### Primitive model and GPU encoding (`canvas.rs`) -/

/-- Row count and sub-primitive count of a primitive (`PrimitiveInfo`). -/
structure PrimitiveInfo where
  row_count : Nat
  sub_prim_count : Nat
deriving DecidableEq

/-- One 4-byte slot of the flat primitive buffer: either an `f32` value
(modelled as `ℚ`) or a bit-cast packed linear RGBA color (`u32`). -/
inductive Slot
  | val (q : ℚ)
  | color (c : Nat)
deriving DecidableEq

/-- Write one slot at index `i` of the buffer; fails (like the Rust slice
index panic) when `i` is out of bounds. -/
def wr (buf : List (Option Slot)) (i : Nat) (s : Slot) :
    Option (List (Option Slot)) :=
  if i < buf.length then some (buf.set i (some s)) else none

/-- `LinePrimitive` — colors are stored as the packed linear RGBA `u32`
produced by `color.to_linear().as_u32()`. -/
structure LinePrimitive where
  start : V2
  end_ : V2
  color : Nat
  thickness : ℚ
  border_width : ℚ
  border_color : Nat
deriving DecidableEq

/-- `LinePrimitive::is_bordered()`: `border_width > 0.`. -/
def LinePrimitive.is_bordered (l : LinePrimitive) : Bool :=
  decide (0 < l.border_width)

/-- `LinePrimitive::info()`: 6 rows plus 2 when bordered, one sub-primitive. -/
def LinePrimitive.info (l : LinePrimitive) : PrimitiveInfo :=
  ⟨6 + if l.is_bordered then 2 else 0, 1⟩

/-- `LinePrimitive::write()` into a slice of length `n`: the six base slots
are written unconditionally (an out-of-bounds index fails), then the slice
length is asserted to be exactly 8 (bordered) or 6 (not bordered). -/
def LinePrimitive.write (l : LinePrimitive) (n : Nat) (ct : V2) (sf : ℚ) :
    Option (List (Option Slot)) :=
  (wr (List.replicate n none) 0 (.val ((l.start.x + ct.x) * sf))).bind fun b1 =>
  (wr b1 1 (.val ((l.start.y + ct.y) * sf))).bind fun b2 =>
  (wr b2 2 (.val ((l.end_.x + ct.x) * sf))).bind fun b3 =>
  (wr b3 3 (.val ((l.end_.y + ct.y) * sf))).bind fun b4 =>
  (wr b4 4 (.color l.color)).bind fun b5 =>
  (wr b5 5 (.val (l.thickness * sf))).bind fun b6 =>
  if l.is_bordered then
    if n = 8 then
      (wr b6 6 (.val (l.border_width * sf))).bind fun b7 =>
      wr b7 7 (.color l.border_color)
    else none
  else
    if n = 6 then some b6 else none

/-- `RectPrimitive` (texture handle as in `PrimitiveBatch`; scaling mode and
flip flags do not participate in the encoding). -/
structure RectPrimitive where
  rect : Aabb2d
  radius : ℚ
  color : Nat
  image : Option Nat
  image_size : V2
  flip_x : Bool
  flip_y : Bool
  border_width : ℚ
  border_color : Nat
deriving DecidableEq

/-- `RectPrimitive::ROW_COUNT_BASE`. -/
def RectPrimitive.ROW_COUNT_BASE : Nat := 6

/-- `RectPrimitive::ROW_COUNT_TEX`. -/
def RectPrimitive.ROW_COUNT_TEX : Nat := 4

/-- `RectPrimitive::ROW_COUNT_BORDER`. -/
def RectPrimitive.ROW_COUNT_BORDER : Nat := 2

/-- `RectPrimitive::is_textured()`: the image handle is `Some`. -/
def RectPrimitive.is_textured (r : RectPrimitive) : Bool :=
  r.image.isSome

/-- `RectPrimitive::is_bordered()`: `border_width > 0.`. -/
def RectPrimitive.is_bordered (r : RectPrimitive) : Bool :=
  decide (0 < r.border_width)

/-- `RectPrimitive::row_count()`: base 6, plus 4 when textured, plus 2 when
bordered. -/
def RectPrimitive.row_count (r : RectPrimitive) : Nat :=
  RectPrimitive.ROW_COUNT_BASE +
    (if r.is_textured then RectPrimitive.ROW_COUNT_TEX else 0) +
    (if r.is_bordered then RectPrimitive.ROW_COUNT_BORDER else 0)

/-- `RectPrimitive::info()`. -/
def RectPrimitive.info (r : RectPrimitive) : PrimitiveInfo :=
  ⟨r.row_count, 1⟩

/-- `RectPrimitive::write()`: assert the slice length equals `row_count()`
first, then write the base slots, the texture slots (when textured), and the
border slots (when bordered), in that order. -/
def RectPrimitive.write (r : RectPrimitive) (n : Nat) (ct : V2) (sf : ℚ) :
    Option (List (Option Slot)) :=
  if n = r.row_count then
    let half_min : V2 := ⟨r.rect.min.x * (1/2 * sf), r.rect.min.y * (1/2 * sf)⟩
    let half_max : V2 := ⟨r.rect.max.x * (1/2 * sf), r.rect.max.y * (1/2 * sf)⟩
    let center : V2 := ⟨half_min.x + half_max.x + ct.x * sf,
                        half_min.y + half_max.y + ct.y * sf⟩
    let half_size : V2 := ⟨half_max.x - half_min.x, half_max.y - half_min.y⟩
    (wr (List.replicate n none) 0 (.val center.x)).bind fun b1 =>
    (wr b1 1 (.val center.y)).bind fun b2 =>
    (wr b2 2 (.val half_size.x)).bind fun b3 =>
    (wr b3 3 (.val half_size.y)).bind fun b4 =>
    (wr b4 4 (.val (r.radius * sf))).bind fun b5 =>
    (wr b5 5 (.color r.color)).bind fun b6 =>
    if r.is_textured then
      (wr b6 6 (.val (1/2))).bind fun b7 =>
      (wr b7 7 (.val (1/2))).bind fun b8 =>
      (wr b8 8 (.val (1 / r.image_size.x))).bind fun b9 =>
      (wr b9 9 (.val (1 / r.image_size.y))).bind fun b10 =>
      if r.is_bordered then
        (wr b10 10 (.val (r.border_width * sf))).bind fun b11 =>
        wr b11 11 (.color r.border_color)
      else some b10
    else
      if r.is_bordered then
        (wr b6 6 (.val (r.border_width * sf))).bind fun b7 =>
        wr b7 7 (.color r.border_color)
      else some b6
  else none

/-- `QuarterPiePrimitive`. -/
structure QuarterPiePrimitive where
  origin : V2
  radii : V2
  color : Nat
  flip_x : Bool
  flip_y : Bool
deriving DecidableEq

/-- `QuarterPiePrimitive::ROW_COUNT` and `row_count()`: always 5. -/
def QuarterPiePrimitive.row_count (_q : QuarterPiePrimitive) : Nat := 5

/-- `QuarterPiePrimitive::info()`. -/
def QuarterPiePrimitive.info (q : QuarterPiePrimitive) : PrimitiveInfo :=
  ⟨q.row_count, 1⟩

/-- `QuarterPiePrimitive::write()`: assert the slice length equals 5, then
write origin, signed radii (negated per flip flags) and color. -/
def QuarterPiePrimitive.write (q : QuarterPiePrimitive) (n : Nat) (ct : V2)
    (sf : ℚ) : Option (List (Option Slot)) :=
  if n = q.row_count then
    let srx := if q.flip_x then -q.radii.x else q.radii.x
    let sry := if q.flip_y then -q.radii.y else q.radii.y
    (wr (List.replicate n none) 0 (.val ((q.origin.x + ct.x) * sf))).bind fun b1 =>
    (wr b1 1 (.val ((q.origin.y + ct.y) * sf))).bind fun b2 =>
    (wr b2 2 (.val (srx * sf))).bind fun b3 =>
    (wr b3 3 (.val (sry * sf))).bind fun b4 =>
    wr b4 4 (.color q.color)
  else none

/-! ### Text primitives (`canvas.rs` `TextPrimitive`, `render/mod.rs` glyphs) -/

/-- A glyph produced by the external text shaper (`ExtractedGlyph`). -/
structure ExtractedGlyph where
  offset : V2
  size : V2
  color : Nat
  handle_id : Option Nat
  uv_rect : Aabb2d
deriving DecidableEq

/-- Resolved glyphs of one text (`ExtractedText`). -/
structure ExtractedText where
  glyphs : List ExtractedGlyph
deriving DecidableEq

/-- `TextPrimitive`: an id into the canvas texts plus a placement rectangle. -/
structure TextPrimitive where
  id : Nat
  rect : Aabb2d
deriving DecidableEq

/-- `TextPrimitive::ROW_PER_GLYPH = RectPrimitive::ROW_COUNT_BASE +
RectPrimitive::ROW_COUNT_TEX`. -/
def TextPrimitive.ROW_PER_GLYPH : Nat :=
  RectPrimitive.ROW_COUNT_BASE + RectPrimitive.ROW_COUNT_TEX

/-- `TextPrimitive::info()`: for an in-range id, `ROW_PER_GLYPH` rows and one
sub-primitive per resolved glyph; for an out-of-range id, zero rows and zero
sub-primitives. -/
def TextPrimitive.info (t : TextPrimitive) (texts : List ExtractedText) :
    PrimitiveInfo :=
  if t.id < texts.length then
    ⟨TextPrimitive.ROW_PER_GLYPH, (texts.getD t.id ⟨[]⟩).glyphs.length⟩
  else
    ⟨0, 0⟩

/-- Rust `f32::round`: round half away from zero. -/
def qround (x : ℚ) : ℚ :=
  if 0 ≤ x then (⌊x + 1/2⌋ : ℤ) else -(⌊-x + 1/2⌋ : ℤ)

/-- The glyph loop of `TextPrimitive::write()`: write ten slots per glyph at
consecutive offsets `ip, ip+10, …`. -/
def textWriteGlyphs (rectMin : V2) (ct : V2) (sf : ℚ) :
    List ExtractedGlyph → Nat → List (Option Slot) →
      Option (List (Option Slot))
  | [], _ip, buf => some buf
  | g :: rest, ip, buf =>
    let x := g.offset.x + (rectMin.x + ct.x) * sf
    let y := g.offset.y + (rectMin.y + ct.y) * sf
    let hw := g.size.x / 2
    let hh := g.size.y / 2
    let uv_x := g.uv_rect.min.x / 1024
    let uv_y := g.uv_rect.min.y / 1024
    let uv_w := g.uv_rect.max.x / 1024 - uv_x
    let uv_h := g.uv_rect.max.y / 1024 - uv_y
    (wr buf (ip + 0) (.val (qround x + hw))).bind fun b1 =>
    (wr b1 (ip + 1) (.val (qround y + hh))).bind fun b2 =>
    (wr b2 (ip + 2) (.val hw)).bind fun b3 =>
    (wr b3 (ip + 3) (.val hh)).bind fun b4 =>
    (wr b4 (ip + 4) (.val 0)).bind fun b5 =>
    (wr b5 (ip + 5) (.color g.color)).bind fun b6 =>
    (wr b6 (ip + 6) (.val (uv_x + uv_w / 2))).bind fun b7 =>
    (wr b7 (ip + 7) (.val (uv_y + uv_h / 2))).bind fun b8 =>
    (wr b8 (ip + 8) (.val (1 / 1024))).bind fun b9 =>
    (wr b9 (ip + 9) (.val (1 / 1024))).bind fun b10 =>
    textWriteGlyphs rectMin ct sf rest (ip + TextPrimitive.ROW_PER_GLYPH) b10

/-- `TextPrimitive::write()`: index the resolved texts (out of range fails,
like the Rust slice index panic), assert
`glyph_count * ROW_PER_GLYPH == prim.len()`, then run the glyph loop. -/
def TextPrimitive.write (t : TextPrimitive) (texts : List ExtractedText)
    (n : Nat) (ct : V2) (sf : ℚ) : Option (List (Option Slot)) :=
  match texts[t.id]? with
  | none => none
  | some et =>
    if n = et.glyphs.length * TextPrimitive.ROW_PER_GLYPH then
      textWriteGlyphs t.rect.min ct sf et.glyphs 0
        (List.replicate n (none : Option Slot))
    else none

/-- The `Primitive::Text` branch of `SubPrimIter::next` as a list: an
out-of-range id yields no sub-primitives; otherwise one
`(atlas handle, logical AABB)` per resolved glyph, the AABB being the text
placement origin plus the glyph offset/size scaled by `inv_scale_factor`. -/
def textSubPrims (t : TextPrimitive) (texts : List ExtractedText)
    (inv_sf : ℚ) : List (Option Nat × Aabb2d) :=
  match texts[t.id]? with
  | none => []
  | some et =>
    et.glyphs.map fun g =>
      (g.handle_id,
        ⟨⟨t.rect.min.x + g.offset.x * inv_sf,
          t.rect.min.y + g.offset.y * inv_sf⟩,
         ⟨t.rect.min.x + (g.offset.x + g.size.x) * inv_sf,
          t.rect.min.y + (g.offset.y + g.size.y) * inv_sf⟩⟩)

/-- Total rows a primitive contributes to the flat buffer in
`prepare_primitives` (`row_count * sub_prim_count`, written only when both
are positive). -/
def totalRowCount (pi : PrimitiveInfo) : Nat :=
  pi.row_count * pi.sub_prim_count

theorem lor_high_low {m a c n : Nat} (ha : a < 2 ^ n) :
    (2 ^ n * m + a) ||| 2 ^ n * c = 2 ^ n * (m ||| c) + a := by
  apply Nat.eq_of_testBit_eq
  intro j
  rcases Nat.lt_or_ge j n with hj | hj
  · have hc : (2 ^ n * c).testBit j = false := by
      rw [Nat.mul_comm, ← Nat.shiftLeft_eq, Nat.testBit_shiftLeft]
      simp [Nat.not_le.mpr hj]
    rw [Nat.testBit_or, hc, Bool.or_false,
      Nat.testBit_mul_pow_two_add m ha j, Nat.testBit_mul_pow_two_add (m ||| c) ha j]
    simp [hj]
  · have hc : (2 ^ n * c).testBit j = c.testBit (j - n) := by
      rw [Nat.mul_comm, ← Nat.shiftLeft_eq, Nat.testBit_shiftLeft]
      simp [hj]
    rw [Nat.testBit_or, hc,
      Nat.testBit_mul_pow_two_add m ha j, Nat.testBit_mul_pow_two_add (m ||| c) ha j]
    simp [Nat.not_lt.mpr hj, Nat.testBit_or]

theorem lor_low {a c n : Nat} (ha : a < 2 ^ n) :
    a ||| 2 ^ n * c = a + 2 ^ n * c := by
  have h := lor_high_low (m := 0) (c := c) ha
  simp only [Nat.mul_zero, Nat.zero_add, Nat.zero_or] at h
  rw [h, Nat.add_comm]

theorem packed_eq_add (index : Nat) (kind : GpuPrimitiveKind)
    (textured bordered : Bool) :
    packedPrimitiveIndex_new index kind textured bordered =
      index % 2 ^ 27 + (cond bordered 1 0) * 2 ^ 27 +
        kind.toU32 * 2 ^ 28 + (cond textured 1 0) * 2 ^ 31 := by
  have hmask : (0x07FFFFFF : Nat) = 2 ^ 27 - 1 := by norm_num
  have hi : index &&& 0x07FFFFFF = index % 2 ^ 27 := by
    rw [hmask, Nat.and_pow_two_sub_one_eq_mod]
  have hi27 : index % 2 ^ 27 < 2 ^ 27 := Nat.mod_lt _ (by norm_num)
  have hk4 : kind.toU32 < 4 := by cases kind <;> simp [GpuPrimitiveKind.toU32]
  have ht2 : (cond textured 1 0) < 2 := by cases textured <;> simp
  have hb2 : (cond bordered 1 0) < 2 := by cases bordered <;> simp
  unfold packedPrimitiveIndex_new
  dsimp only
  rw [hi, Nat.shiftLeft_eq, Nat.shiftLeft_eq, Nat.shiftLeft_eq]
  rw [Nat.mul_comm kind.toU32 (2 ^ 28), lor_low (by omega)]
  rw [Nat.mul_comm (cond textured 1 0) (2 ^ 31), lor_low (by omega)]
  have hsplit : index % 2 ^ 27 + 2 ^ 28 * kind.toU32 + 2 ^ 31 * (cond textured 1 0) =
      2 ^ 27 * (2 * kind.toU32 + 16 * (cond textured 1 0)) + index % 2 ^ 27 := by ring
  rw [hsplit, Nat.mul_comm (cond bordered 1 0) (2 ^ 27), lor_high_low hi27]
  have hinner : (2 * kind.toU32 + 16 * (cond textured 1 0)) ||| (cond bordered 1 0) =
      (cond bordered 1 0) + 2 * (kind.toU32 + 8 * (cond textured 1 0)) := by
    rw [Nat.or_comm]
    have h2 : 2 * kind.toU32 + 16 * (cond textured 1 0) =
        2 ^ 1 * (kind.toU32 + 8 * (cond textured 1 0)) := by ring
    rw [h2, lor_low (by omega)]
    norm_num
  rw [hinner]
  ring

theorem packed_fields (index : Nat) (kind : GpuPrimitiveKind)
    (textured bordered : Bool) :
    unpackIndex (packedPrimitiveIndex_new index kind textured bordered) = index % 2 ^ 27 ∧
    unpackKind (packedPrimitiveIndex_new index kind textured bordered) = kind.toU32 ∧
    unpackTextured (packedPrimitiveIndex_new index kind textured bordered) = cond textured 1 0 ∧
    unpackBordered (packedPrimitiveIndex_new index kind textured bordered) = cond bordered 1 0 ∧
    unpackBit30 (packedPrimitiveIndex_new index kind textured bordered) = 0 := by
  have hi27 : index % 2 ^ 27 < 2 ^ 27 := Nat.mod_lt _ (by norm_num)
  have hk4 : kind.toU32 < 4 := by cases kind <;> simp [GpuPrimitiveKind.toU32]
  have ht2 : (cond textured 1 0) < 2 := by cases textured <;> simp
  have hb2 : (cond bordered 1 0) < 2 := by cases bordered <;> simp
  rw [packed_eq_add]
  unfold unpackIndex unpackKind unpackTextured unpackBordered unpackBit30
  rw [show (0x07FFFFFF : Nat) = 2 ^ 27 - 1 from by norm_num,
    Nat.and_pow_two_sub_one_eq_mod,
    show (3 : Nat) = 2 ^ 2 - 1 from by norm_num]
  rw [Nat.and_pow_two_sub_one_eq_mod, Nat.and_one_is_mod, Nat.and_one_is_mod,
    Nat.and_one_is_mod, Nat.shiftRight_eq_div_pow,
    Nat.shiftRight_eq_div_pow, Nat.shiftRight_eq_div_pow, Nat.shiftRight_eq_div_pow]
  refine ⟨by omega, by omega, by omega, by omega, by omega⟩

/-- C10: `PackedPrimitiveIndex::new` stores exactly `index mod 2^27` in the
low 27 bits and sets the bordered (bit 27), kind (bits 28-29) and textured
(bit 31) fields from its arguments, with bit 30 zero: an oversized index is
silently truncated by the mask and never corrupts the kind or flag bits. -/
theorem keith_c10_index_truncation (index : Nat) (kind : GpuPrimitiveKind)
    (textured bordered : Bool) :
    unpackIndex (packedPrimitiveIndex_new index kind textured bordered) = index % 2 ^ 27 ∧
    unpackKind (packedPrimitiveIndex_new index kind textured bordered) = kind.toU32 ∧
    unpackTextured (packedPrimitiveIndex_new index kind textured bordered) = cond textured 1 0 ∧
    unpackBordered (packedPrimitiveIndex_new index kind textured bordered) = cond bordered 1 0 ∧
    unpackBit30 (packedPrimitiveIndex_new index kind textured bordered) = 0 :=
  packed_fields index kind textured bordered

/-- C4: for every `index < 2^27`, every kind and both flags, packing with
`PackedPrimitiveIndex::new` and then extracting the bit fields of the packed
32-bit value recovers the original `(index, kind, textured, bordered)`
tuple, and bit 30 is zero. -/
theorem keith_c4_roundtrip (index : Nat) (kind : GpuPrimitiveKind)
    (textured bordered : Bool) (h : index < 2 ^ 27) :
    unpackIndex (packedPrimitiveIndex_new index kind textured bordered) = index ∧
    unpackKind (packedPrimitiveIndex_new index kind textured bordered) = kind.toU32 ∧
    GpuPrimitiveKind.ofU32
        (unpackKind (packedPrimitiveIndex_new index kind textured bordered)) = kind ∧
    unpackTextured (packedPrimitiveIndex_new index kind textured bordered) = cond textured 1 0 ∧
    unpackBordered (packedPrimitiveIndex_new index kind textured bordered) = cond bordered 1 0 ∧
    unpackBit30 (packedPrimitiveIndex_new index kind textured bordered) = 0 := by
  obtain ⟨h1, h2, h3, h4, h5⟩ := packed_fields index kind textured bordered
  refine ⟨?_, h2, ?_, h3, h4, h5⟩
  · rw [h1, Nat.mod_eq_of_lt h]
  · rw [h2]; cases kind <;> rfl

theorem keith_c4_roundtrip_witness :
    unpackIndex (packedPrimitiveIndex_new 12345 .line true false) = 12345 ∧
    unpackKind (packedPrimitiveIndex_new 12345 .line true false) = GpuPrimitiveKind.line.toU32 ∧
    GpuPrimitiveKind.ofU32
        (unpackKind (packedPrimitiveIndex_new 12345 .line true false)) = .line ∧
    unpackTextured (packedPrimitiveIndex_new 12345 .line true false) = cond true 1 0 ∧
    unpackBordered (packedPrimitiveIndex_new 12345 .line true false) = cond false 1 0 ∧
    unpackBit30 (packedPrimitiveIndex_new 12345 .line true false) = 0 :=
  keith_c4_roundtrip 12345 .line true false (by norm_num)

set_option maxRecDepth 4000 in
/-- C9 counterexample: fitting a 256x64 image into 128x128 content without
stretch-other (`fit_any`) yields 512x128, not the claimed 128x32. -/
theorem keith_c9_counterexample :
    fit_any ⟨256, 64⟩ ⟨128, 128⟩ false = ⟨512, 128⟩ ∧
    fit_any ⟨256, 64⟩ ⟨128, 128⟩ false ≠ ⟨128, 32⟩ := by
  with_unfolding_all decide

set_option maxRecDepth 4000 in
/-- C9 (amended): `fit_any` maps a 256x64 image to 512x128 for 512x32
content and also to 512x128 (covering) for 128x128 content; with
stretch-other it yields 128x128; the claimed 128x32 is what `fit_width`
produces for 128x128 content. -/
theorem keith_c9_aspect_fit :
    fit_any ⟨256, 64⟩ ⟨512, 32⟩ false = ⟨512, 128⟩ ∧
    fit_any ⟨256, 64⟩ ⟨128, 128⟩ false = ⟨512, 128⟩ ∧
    fit_any ⟨256, 64⟩ ⟨128, 128⟩ true = ⟨128, 128⟩ ∧
    fit_width ⟨256, 64⟩ ⟨128, 128⟩ false = ⟨128, 32⟩ := by
  with_unfolding_all decide

/-- C1 counterexample: for a 12x8 viewport (2x1 tiles), one primitive whose
AABB reaches the viewport edge makes a single `assign_to_tiles` call append
3 offset/count entries instead of `tiles_x * tiles_y = 2`. -/
theorem keith_c1_counterexample :
    update_size_dimensions (12, 8) = (2, 1) ∧
    (assign_to_tiles (update_size_dimensions (12, 8))
        [⟨⟨⟨0, 0⟩, ⟨12, 8⟩⟩, 7⟩] ⟨12, 8⟩).offset_and_count.length = 3 ∧
    (2 : Nat) * 1 ≠ 3 := by
  with_unfolding_all decide

/-- C2: binning the AABB [8,16]x[16,32] into the 4x8 tile grid of a 32x64
viewport yields entry 9 = (offset 0, count 1), entry 13 = (offset 1,
count 1), and count 0 for the other 30 entries; in general, per axis, when
the AABB max coordinate equals a tile grid line `8*m` exactly, the
inclusive max tile index becomes `m - 1`, excluding the tile on the far
side of that line. -/
theorem keith_c2_edge_exclusion :
    ((assign_to_tiles (update_size_dimensions (32, 64))
        [⟨⟨⟨8, 16⟩, ⟨16, 32⟩⟩, 7⟩] ⟨32, 64⟩).offset_and_count.length = 32 ∧
      (assign_to_tiles (update_size_dimensions (32, 64))
        [⟨⟨⟨8, 16⟩, ⟨16, 32⟩⟩, 7⟩] ⟨32, 64⟩).offset_and_count[9]? = some ⟨0, 1⟩ ∧
      (assign_to_tiles (update_size_dimensions (32, 64))
        [⟨⟨⟨8, 16⟩, ⟨16, 32⟩⟩, 7⟩] ⟨32, 64⟩).offset_and_count[13]? = some ⟨1, 1⟩ ∧
      ∀ j, j < 32 → j ≠ 9 → j ≠ 13 →
        ((assign_to_tiles (update_size_dimensions (32, 64))
          [⟨⟨⟨8, 16⟩, ⟨16, 32⟩⟩, 7⟩] ⟨32, 64⟩).offset_and_count[j]?).map
            OffsetAndCount.count = some 0) ∧
    (∀ (a : Aabb2d) (screen : V2) (m : Int), 0 ≤ a.max.x → a.max.x ≤ screen.x →
      a.max.x = 8 * (m : ℚ) → uvMaxX a screen = m - 1) ∧
    (∀ (a : Aabb2d) (screen : V2) (m : Int), 0 ≤ a.max.y → a.max.y ≤ screen.y →
      a.max.y = 8 * (m : ℚ) → uvMaxY a screen = m - 1) := by
  refine ⟨by with_unfolding_all decide, ?_, ?_⟩
  · intro a screen m h0 h1 h3
    have hraw : uvMaxRawX a screen = m := by
      unfold uvMaxRawX qclamp
      rw [max_eq_left h0, min_eq_left h1, h3,
        mul_div_cancel_left₀ _ (by norm_num : (8:ℚ) ≠ 0)]
      exact Int.ceil_intCast m
    have hcond : a.max.x = 8 * ((uvMaxRawX a screen : Int) : ℚ) := by
      rw [hraw]; exact h3
    unfold uvMaxX
    rw [if_pos hcond, hraw]
  · intro a screen m h0 h1 h3
    have hraw : uvMaxRawY a screen = m := by
      unfold uvMaxRawY qclamp
      rw [max_eq_left h0, min_eq_left h1, h3,
        mul_div_cancel_left₀ _ (by norm_num : (8:ℚ) ≠ 0)]
      exact Int.ceil_intCast m
    have hcond : a.max.y = 8 * ((uvMaxRawY a screen : Int) : ℚ) := by
      rw [hraw]; exact h3
    unfold uvMaxY
    rw [if_pos hcond, hraw]

theorem keith_c2_edge_exclusion_witness :
    uvMaxX ⟨⟨0, 0⟩, ⟨16, 8⟩⟩ ⟨32, 64⟩ = 1 ∧
    uvMaxY ⟨⟨0, 0⟩, ⟨16, 8⟩⟩ ⟨32, 64⟩ = 0 :=
  ⟨keith_c2_edge_exclusion.2.1 ⟨⟨0, 0⟩, ⟨16, 8⟩⟩ ⟨32, 64⟩ 2
      (by norm_num) (by norm_num) (by norm_num),
    keith_c2_edge_exclusion.2.2 ⟨⟨0, 0⟩, ⟨16, 8⟩⟩ ⟨32, 64⟩ 1
      (by norm_num) (by norm_num) (by norm_num)⟩

theorem mem_irange {lo hi v : Int} : v ∈ irange lo hi ↔ lo ≤ v ∧ v ≤ hi := by
  simp only [irange, List.mem_map, List.mem_range]
  constructor
  · rintro ⟨i, hi', rfl⟩
    omega
  · intro ⟨h1, h2⟩
    exact ⟨(v - lo).toNat, by omega, by omega⟩

theorem tileEntries_prim (dims : Nat × Nat) (screen : V2) (p : PreparedPrimitive) :
    ∀ e ∈ tileEntries dims screen p, e.prim_index = p.prim_index := by
  intro e he
  simp only [tileEntries, List.mem_flatMap, List.mem_map] at he
  obtain ⟨ty, _, tx, _, rfl⟩ := he
  rfl

theorem uvMin_nonneg (a : Aabb2d) (screen : V2) (hx : 0 ≤ screen.x)
    (hy : 0 ≤ screen.y) : 0 ≤ uvMinX a screen ∧ 0 ≤ uvMinY a screen := by
  constructor
  · unfold uvMinX qclamp
    rw [Int.le_floor]
    push_cast
    have h1 : (0:ℚ) ≤ min (max a.min.x 0) screen.x := le_min (le_max_right _ _) hx
    positivity
  · unfold uvMinY qclamp
    rw [Int.le_floor]
    push_cast
    have h1 : (0:ℚ) ≤ min (max a.min.y 0) screen.y := le_min (le_max_right _ _) hy
    positivity

theorem tileEntries_bounds (dims : Nat × Nat) (screen : V2) (p : PreparedPrimitive) :
    ∀ e ∈ tileEntries dims screen p, ∃ tx ty : Int,
      e.tile_index = ty * (dims.1 : Int) + tx ∧
      uvMinX p.aabb screen ≤ tx ∧ tx ≤ uvMaxX p.aabb screen ∧
      uvMinY p.aabb screen ≤ ty ∧ ty ≤ uvMaxY p.aabb screen := by
  intro e he
  simp only [tileEntries, List.mem_flatMap, List.mem_map] at he
  obtain ⟨ty, hty, tx, htx, rfl⟩ := he
  rw [mem_irange] at hty htx
  exact ⟨tx, ty, rfl, htx.1, htx.2, hty.1, hty.2⟩

theorem tileEntries_nonneg (dims : Nat × Nat) (screen : V2) (p : PreparedPrimitive)
    (hx : 0 ≤ screen.x) (hy : 0 ≤ screen.y) :
    ∀ e ∈ tileEntries dims screen p, 0 ≤ e.tile_index := by
  intro e he
  obtain ⟨tx, ty, hk, h1, _, h3, _⟩ := tileEntries_bounds dims screen p e he
  obtain ⟨hmx, hmy⟩ := uvMin_nonneg p.aabb screen hx hy
  have h0x : 0 ≤ tx := le_trans hmx h1
  have h0y : 0 ≤ ty := le_trans hmy h3
  rw [hk]
  have : (0:Int) ≤ ty * (dims.1 : Int) := mul_nonneg h0y (Int.natCast_nonneg _)
  omega

theorem tileEntries_lt (dims : Nat × Nat) (screen : V2) (p : PreparedPrimitive)
    (hx : 0 ≤ screen.x) (hy : 0 ≤ screen.y)
    (hmx : uvMaxX p.aabb screen < (dims.1 : Int))
    (hmy : uvMaxY p.aabb screen < (dims.2 : Int)) :
    ∀ e ∈ tileEntries dims screen p, e.tile_index < ((dims.1 * dims.2 : Nat) : Int) := by
  intro e he
  obtain ⟨tx, ty, hk, h1, h2, h3, h4⟩ := tileEntries_bounds dims screen p e he
  obtain ⟨hnx, hny⟩ := uvMin_nonneg p.aabb screen hx hy
  have h0x : 0 ≤ tx := le_trans hnx h1
  have h0y : 0 ≤ ty := le_trans hny h3
  have htx : tx < (dims.1 : Int) := lt_of_le_of_lt h2 hmx
  have hty : ty < (dims.2 : Int) := lt_of_le_of_lt h4 hmy
  rw [hk]
  push_cast
  calc ty * (dims.1 : Int) + tx < ty * (dims.1 : Int) + (dims.1 : Int) := by omega
    _ = (ty + 1) * (dims.1 : Int) := by ring
    _ ≤ (dims.2 : Int) * (dims.1 : Int) := by
        apply mul_le_mul_of_nonneg_right (by omega) (Int.natCast_nonneg _)
    _ = (dims.1 : Int) * (dims.2 : Int) := by ring

theorem sortAssigned_sorted (l : List AssignedTile) :
    (sortAssigned l).Pairwise tileLE :=
  List.sorted_insertionSort tileLE l

theorem sortAssigned_perm (l : List AssignedTile) : List.Perm (sortAssigned l) l :=
  List.perm_insertionSort tileLE l

theorem filter_orderedInsert (t : Int) (a : AssignedTile) (l : List AssignedTile) :
    (List.orderedInsert tileLE a l).filter (fun x => decide (x.tile_index = t)) =
      if a.tile_index = t then
        a :: l.filter (fun x => decide (x.tile_index = t))
      else l.filter (fun x => decide (x.tile_index = t)) := by
  induction l with
  | nil =>
    by_cases h : a.tile_index = t <;> simp [List.orderedInsert, h]
  | cons b rest ih =>
    simp only [List.orderedInsert]
    by_cases hle : tileLE a b
    · rw [if_pos hle]
      by_cases h : a.tile_index = t <;> simp [h, List.filter_cons]
    · rw [if_neg hle]
      have hb : b.tile_index < a.tile_index := by
        simp only [tileLE, not_le] at hle
        exact hle
      by_cases h : a.tile_index = t
      · have hbt : ¬ (b.tile_index = t) := by omega
        simp [List.filter_cons, hbt, ih, h]
      · simp [List.filter_cons, ih, h]

theorem filter_sortAssigned (t : Int) (l : List AssignedTile) :
    (sortAssigned l).filter (fun x => decide (x.tile_index = t)) =
      l.filter (fun x => decide (x.tile_index = t)) := by
  induction l with
  | nil => rfl
  | cons a rest ih =>
    show (List.orderedInsert tileLE a (sortAssigned rest)).filter _ = _
    rw [filter_orderedInsert, List.filter_cons]
    by_cases h : a.tile_index = t <;> simp [h, ih]

theorem binLoop_prims (ocExtra : Nat) (l : List AssignedTile) :
    ∀ (ti : Int) (offset count plen : Nat),
      (binLoop ocExtra ti offset count plen l).2 = l.map AssignedTile.prim_index := by
  induction l with
  | nil => intro ti o c p; rfl
  | cons a rest ih =>
    intro ti o c p
    by_cases h : a.tile_index = ti <;> simp [binLoop, h, ih]

theorem binLoop_oc_pos (ocExtra : Nat) (l : List AssignedTile) :
    ∀ (ti : Int) (offset count plen : Nat), 0 < count →
      0 < (binLoop ocExtra ti offset count plen l).1.length := by
  induction l with
  | nil =>
    intro ti o c p hc
    simp [binLoop, hc]
  | cons a rest ih =>
    intro ti o c p hc
    by_cases h : a.tile_index = ti
    · simpa [binLoop, h] using ih ti o (c + 1) (p + 1) (by omega)
    · simp [binLoop, h, hc]

theorem binLoop_len (ocExtra : Nat) (l : List AssignedTile) :
    ∀ (ti : Int) (offset count plen : Nat),
      ((0 < count ∧ 0 ≤ ti) ∨ (count = 0 ∧ ti = -1)) →
      l.Pairwise tileLE →
      (∀ e ∈ l, ti ≤ e.tile_index ∧ 0 ≤ e.tile_index ∧ e.tile_index < (ocExtra : Int)) →
      ti < (ocExtra : Int) →
      (binLoop ocExtra ti offset count plen l).1.length =
        (if 0 < count then 1 else 0) + ((ocExtra : Int) - (ti + 1)).toNat := by
  induction l with
  | nil =>
    intro ti o c p _ _ _ _
    by_cases hc : 0 < c <;> simp [binLoop, hc, Nat.add_comm]
  | cons a rest ih =>
    intro ti o c p hinv hp hk hto
    obtain ⟨hti, h0, hlt⟩ := hk a (List.mem_cons_self a rest)
    have hpa : ∀ e ∈ rest, tileLE a e := (List.pairwise_cons.mp hp).1
    by_cases h : a.tile_index = ti
    · have hc : 0 < c := by
        rcases hinv with ⟨hc, _⟩ | ⟨_, hti'⟩
        · exact hc
        · omega
      have hrest : ∀ e ∈ rest, ti ≤ e.tile_index ∧ 0 ≤ e.tile_index ∧
          e.tile_index < (ocExtra : Int) := by
        intro e he
        have h1 := hpa e he
        have h2 := hk e (List.mem_cons_of_mem _ he)
        simp only [tileLE] at h1
        exact ⟨by omega, h2.2⟩
      have := ih ti o (c + 1) (p + 1) (Or.inl ⟨by omega, by omega⟩)
        (List.Pairwise.of_cons hp) hrest hto
      simp only [binLoop, if_pos h]
      simp only [this]
      simp [hc]
    · have hlt' : ti < a.tile_index := by omega
      have hrest : ∀ e ∈ rest, a.tile_index ≤ e.tile_index ∧ 0 ≤ e.tile_index ∧
          e.tile_index < (ocExtra : Int) := by
        intro e he
        have h1 := hpa e he
        have h2 := hk e (List.mem_cons_of_mem _ he)
        simp only [tileLE] at h1
        exact ⟨h1, h2.2⟩
      have hrec := ih a.tile_index p 1 (p + 1) (Or.inl ⟨by omega, by omega⟩)
        (List.Pairwise.of_cons hp) hrest hlt
      simp only [binLoop, if_neg h]
      simp only [List.length_append, hrec, List.length_replicate]
      by_cases hc : 0 < c <;> simp [hc] <;> omega

theorem binLoop_len_lb (ocExtra : Nat) (l : List AssignedTile) :
    ∀ (ti : Int) (offset count plen : Nat), 0 < count →
      l.Pairwise tileLE → (∀ e ∈ l, ti ≤ e.tile_index) →
      ∀ e ∈ l, (e.tile_index - ti).toNat <
        (binLoop ocExtra ti offset count plen l).1.length := by
  induction l with
  | nil => intro ti o c p _ _ _ e he; cases he
  | cons a rest ih =>
    intro ti o c p hc hp hk e he
    have hpa : ∀ x ∈ rest, tileLE a x := (List.pairwise_cons.mp hp).1
    rw [List.mem_cons] at he
    by_cases h : a.tile_index = ti
    · have hlen := binLoop_oc_pos ocExtra rest ti o (c + 1) (p + 1) (by omega)
      rcases he with rfl | he
      · simp only [binLoop, if_pos h, h]
        simpa using hlen
      · have := ih ti o (c + 1) (p + 1) (by omega) (List.Pairwise.of_cons hp)
          (fun x hx => hk x (List.mem_cons_of_mem _ hx)) e he
        simpa [binLoop, if_pos h] using this
    · have hti : ti ≤ a.tile_index := hk a (List.mem_cons_self a rest)
      have hlt' : ti < a.tile_index := by omega
      simp only [binLoop, if_neg h, List.length_append, List.length_replicate]
      have hpos := binLoop_oc_pos ocExtra rest a.tile_index p 1 (p + 1) (by omega)
      rcases he with rfl | he
      · by_cases hc0 : 0 < c <;> simp [hc0] <;> omega
      · have hrec := ih a.tile_index p 1 (p + 1) (by omega)
          (List.Pairwise.of_cons hp) hpa e he
        have hae : tileLE a e := hpa e he
        simp only [tileLE] at hae
        by_cases hc0 : 0 < c <;> simp [hc0] <;> omega

theorem filter_key_eq_cons (t : Int) (a : AssignedTile) (l : List AssignedTile) :
    ((a :: l).filter (fun x => decide (x.tile_index = t))).length =
      (if a.tile_index = t then 1 else 0) +
        (l.filter (fun x => decide (x.tile_index = t))).length := by
  rw [List.filter_cons]
  by_cases h : a.tile_index = t <;> simp [h] <;> omega

theorem filter_key_lt_cons (t : Int) (a : AssignedTile) (l : List AssignedTile) :
    ((a :: l).filter (fun x => decide (x.tile_index < t))).length =
      (if a.tile_index < t then 1 else 0) +
        (l.filter (fun x => decide (x.tile_index < t))).length := by
  rw [List.filter_cons]
  by_cases h : a.tile_index < t <;> simp [h] <;> omega

theorem binLoop_spec (ocExtra : Nat) (l : List AssignedTile) :
    ∀ (ti : Int) (offset count plen : Nat), 0 < count → 0 ≤ ti →
      l.Pairwise tileLE → (∀ e ∈ l, ti ≤ e.tile_index) →
      offset + count = plen →
      ∀ (j : Nat) (e : OffsetAndCount),
        ((binLoop ocExtra ti offset count plen l).1)[j]? = some e →
        e.count = (if j = 0 then count else 0) +
          (l.filter (fun x => decide (x.tile_index = ti + (j : Int)))).length ∧
        (0 < e.count → e.offset = offset +
          (if j = 0 then 0 else count +
            (l.filter (fun x => decide (x.tile_index < ti + (j : Int)))).length)) := by
  induction l with
  | nil =>
    intro ti o c p hc h0 _ _ hop j e hget
    simp only [binLoop, if_pos hc, List.singleton_append] at hget
    cases j with
    | zero =>
      rw [List.getElem?_cons_zero] at hget
      injection hget with hget
      subst hget
      simp
    | succ jj =>
      rw [List.getElem?_cons_succ, List.getElem?_replicate] at hget
      by_cases hjj : jj < ((ocExtra : Int) - (ti + 1)).toNat
      · rw [if_pos hjj] at hget
        injection hget with hget
        subst hget
        simp
      · rw [if_neg hjj] at hget
        cases hget
  | cons a rest ih =>
    intro ti o c p hc h0 hp hk hop j e hget
    have hpa : ∀ x ∈ rest, a.tile_index ≤ x.tile_index := by
      intro x hx
      have := (List.pairwise_cons.mp hp).1 x hx
      simpa [tileLE] using this
    have hta : ti ≤ a.tile_index := hk a (List.mem_cons_self a rest)
    by_cases h : a.tile_index = ti
    · simp only [binLoop, if_pos h] at hget
      obtain ⟨hcnt, hoff⟩ := ih ti o (c + 1) (p + 1) (by omega) h0
        (List.Pairwise.of_cons hp) (fun x hx => by have := hpa x hx; omega)
        (by omega) j e hget
      refine ⟨?_, fun hpos => ?_⟩
      · rw [hcnt, filter_key_eq_cons]
        split_ifs <;> omega
      · rw [hoff hpos, filter_key_lt_cons]
        split_ifs <;> omega
    · have hlt' : ti < a.tile_index := by omega
      simp only [binLoop, if_neg h, if_pos hc, List.singleton_append] at hget
      by_cases hj : j < (a.tile_index - (ti + 1)).toNat + 1
      · rw [List.getElem?_append_left (by
          simp only [List.length_cons, List.length_replicate]
          omega)] at hget
        have hjint : ti + (j : Int) < a.tile_index := by omega
        have heqlen :
            ((a :: rest).filter
              (fun x => decide (x.tile_index = ti + (j : Int)))).length = 0 := by
          rw [List.length_eq_zero, List.filter_eq_nil_iff]
          intro x hx
          rw [List.mem_cons] at hx
          simp only [decide_eq_true_eq]
          rcases hx with rfl | hx
          · omega
          · have := hpa x hx
            omega
        cases j with
        | zero =>
          rw [List.getElem?_cons_zero] at hget
          injection hget with hget
          subst hget
          refine ⟨?_, fun _ => ?_⟩
          · rw [heqlen]
            simp
          · simp
        | succ jj =>
          rw [List.getElem?_cons_succ, List.getElem?_replicate] at hget
          rw [if_pos (by omega)] at hget
          injection hget with hget
          subst hget
          refine ⟨?_, fun hbad => ?_⟩
          · rw [heqlen]
            simp
          · simp at hbad
      · push_neg at hj
        rw [List.getElem?_append_right (by
          simp only [List.length_cons, List.length_replicate]
          omega)] at hget
        simp only [List.length_cons, List.length_replicate] at hget
        obtain ⟨hcnt, hoff⟩ := ih a.tile_index p 1 (p + 1) (by omega)
          (by omega) (List.Pairwise.of_cons hp) hpa (by omega)
          (j - ((a.tile_index - (ti + 1)).toNat + 1)) e hget
        set jj := j - ((a.tile_index - (ti + 1)).toNat + 1) with hjjdef
        have hjjc : (jj : Int) = (j : Int) - (a.tile_index - ti) := by
          simp only [hjjdef]
          omega
        have hjpos : ¬ (j = 0) := by omega
        have htij : ti + (j : Int) = a.tile_index + (jj : Int) := by omega
        have hrlt0 : jj = 0 → (rest.filter
            (fun x => decide (x.tile_index < a.tile_index + (jj : Int)))).length = 0 := by
          intro hz
          rw [List.length_eq_zero, List.filter_eq_nil_iff]
          intro x hx
          simp only [decide_eq_true_eq]
          have := hpa x hx
          omega
        refine ⟨?_, fun hpos => ?_⟩
        · rw [htij, hcnt, filter_key_eq_cons]
          split_ifs <;> omega
        · rw [htij, hoff hpos, filter_key_lt_cons]
          by_cases hz : jj = 0
          · have h0' := hrlt0 hz
            split_ifs <;> omega
          · split_ifs <;> omega

theorem binLoop_zero_spec (ocExtra : Nat) (l : List AssignedTile)
    (hp : l.Pairwise tileLE) (h0 : ∀ e ∈ l, 0 ≤ e.tile_index) :
    ∀ (t : Nat) (e : OffsetAndCount),
      ((binLoop ocExtra (-1) 0 0 0 l).1)[t]? = some e →
      e.count = (l.filter (fun x => decide (x.tile_index = (t : Int)))).length ∧
      (0 < e.count →
        e.offset = (l.filter (fun x => decide (x.tile_index < (t : Int)))).length) := by
  cases l with
  | nil =>
    intro t e hget
    simp only [binLoop, if_neg (lt_irrefl 0), List.nil_append] at hget
    rw [List.getElem?_replicate] at hget
    by_cases ht : t < ((ocExtra : Int) - (-1 + 1)).toNat
    · rw [if_pos ht] at hget
      injection hget with hget
      subst hget
      simp
    · rw [if_neg ht] at hget
      cases hget
  | cons a rest =>
    intro t e hget
    have ha0 : 0 ≤ a.tile_index := h0 a (List.mem_cons_self a rest)
    have hpa : ∀ x ∈ rest, a.tile_index ≤ x.tile_index := by
      intro x hx
      have := (List.pairwise_cons.mp hp).1 x hx
      simpa [tileLE] using this
    have hne : ¬ (a.tile_index = (-1 : Int)) := by omega
    simp only [binLoop, if_neg hne, if_neg (lt_irrefl 0), List.nil_append] at hget
    by_cases hj : t < (a.tile_index - (-1 + 1)).toNat
    · rw [List.getElem?_append_left (by
        simp only [List.length_replicate]; omega)] at hget
      rw [List.getElem?_replicate, if_pos hj] at hget
      injection hget with hget
      subst hget
      have hlen : ((a :: rest).filter
          (fun x => decide (x.tile_index = (t : Int)))).length = 0 := by
        rw [List.length_eq_zero, List.filter_eq_nil_iff]
        intro x hx
        rw [List.mem_cons] at hx
        simp only [decide_eq_true_eq]
        rcases hx with rfl | hx
        · omega
        · have := hpa x hx
          omega
      exact ⟨by simp [hlen], fun hbad => by simp at hbad⟩
    · push_neg at hj
      rw [List.getElem?_append_right (by
        simp only [List.length_replicate]; omega)] at hget
      simp only [List.length_replicate] at hget
      obtain ⟨hcnt, hoff⟩ := binLoop_spec ocExtra rest a.tile_index 0 1 1
        (by omega) ha0 (List.Pairwise.of_cons hp) hpa (by omega)
        (t - (a.tile_index - (-1 + 1)).toNat) e hget
      set jj := t - (a.tile_index - (-1 + 1)).toNat with hjjdef
      have hjjc : (jj : Int) = (t : Int) - a.tile_index := by
        simp only [hjjdef]
        omega
      have htij : ((t : Nat) : Int) = a.tile_index + (jj : Int) := by omega
      have hrlt0 : jj = 0 → (rest.filter
          (fun x => decide (x.tile_index < a.tile_index + (jj : Int)))).length = 0 := by
        intro hz
        rw [List.length_eq_zero, List.filter_eq_nil_iff]
        intro x hx
        simp only [decide_eq_true_eq]
        have := hpa x hx
        omega
      refine ⟨?_, fun hpos => ?_⟩
      · rw [htij, hcnt, filter_key_eq_cons]
        split_ifs <;> omega
      · rw [htij, hoff hpos, filter_key_lt_cons]
        by_cases hz : jj = 0
        · have h0' := hrlt0 hz
          split_ifs <;> omega
        · split_ifs <;> omega

theorem sorted_decomp (l : List AssignedTile) (t : Int) (hp : l.Pairwise tileLE) :
    l = l.filter (fun x => decide (x.tile_index < t)) ++
        l.filter (fun x => decide (x.tile_index = t)) ++
        l.filter (fun x => decide (t < x.tile_index)) := by
  induction l with
  | nil => rfl
  | cons a rest ih =>
    have hpa : ∀ x ∈ rest, a.tile_index ≤ x.tile_index := by
      intro x hx
      have := (List.pairwise_cons.mp hp).1 x hx
      simpa [tileLE] using this
    have ih' := ih (List.Pairwise.of_cons hp)
    rcases lt_trichotomy a.tile_index t with hlt | heq | hgt
    · have h2 : ¬ (a.tile_index = t) := by omega
      have h3 : ¬ (t < a.tile_index) := by omega
      simp only [List.filter_cons, decide_eq_true_eq]
      rw [if_pos hlt, if_neg h2, if_neg h3]
      rw [List.cons_append, List.cons_append]
      exact congrArg (a :: ·) ih'
    · have h1 : ¬ (a.tile_index < t) := by omega
      have h3 : ¬ (t < a.tile_index) := by omega
      have hnil : rest.filter (fun x => decide (x.tile_index < t)) = [] := by
        rw [List.filter_eq_nil_iff]
        intro x hx
        simp only [decide_eq_true_eq]
        have := hpa x hx
        omega
      simp only [List.filter_cons, decide_eq_true_eq]
      rw [if_neg h1, if_pos heq, if_neg h3, hnil]
      rw [List.nil_append, List.cons_append]
      refine congrArg (a :: ·) ?_
      conv_lhs => rw [ih']
      rw [hnil, List.nil_append]
    · have h1 : ¬ (a.tile_index < t) := by omega
      have h2 : ¬ (a.tile_index = t) := by omega
      have hnil1 : rest.filter (fun x => decide (x.tile_index < t)) = [] := by
        rw [List.filter_eq_nil_iff]
        intro x hx
        simp only [decide_eq_true_eq]
        have := hpa x hx
        omega
      have hnil2 : rest.filter (fun x => decide (x.tile_index = t)) = [] := by
        rw [List.filter_eq_nil_iff]
        intro x hx
        simp only [decide_eq_true_eq]
        have := hpa x hx
        omega
      simp only [List.filter_cons, decide_eq_true_eq]
      rw [if_neg h1, if_neg h2, if_pos hgt, hnil1, hnil2]
      rw [List.nil_append, List.nil_append]
      refine congrArg (a :: ·) ?_
      conv_lhs => rw [ih']
      rw [hnil1, hnil2, List.nil_append, List.nil_append]

theorem assign_to_tiles_oc_spec (dims : Nat × Nat) (prims : List PreparedPrimitive)
    (screen : V2) (hx : 0 ≤ screen.x) (hy : 0 ≤ screen.y) (t : Nat) (e : OffsetAndCount)
    (hget : (assign_to_tiles dims prims screen).offset_and_count[t]? = some e) :
    e.count = ((prims.flatMap (tileEntries dims screen)).filter
        (fun x => decide (x.tile_index = (t : Int)))).length ∧
    (0 < e.count →
      ((assign_to_tiles dims prims screen).primitives.drop e.offset).take e.count =
        ((prims.flatMap (tileEntries dims screen)).filter
          (fun x => decide (x.tile_index = (t : Int)))).map AssignedTile.prim_index) := by
  have hperm := sortAssigned_perm (prims.flatMap (tileEntries dims screen))
  have hp : (sortAssigned (prims.flatMap (tileEntries dims screen))).Pairwise tileLE :=
    sortAssigned_sorted _
  have h0 : ∀ x ∈ sortAssigned (prims.flatMap (tileEntries dims screen)),
      0 ≤ x.tile_index := by
    intro x hxs
    have hxa : x ∈ prims.flatMap (tileEntries dims screen) := hperm.mem_iff.mp hxs
    rw [List.mem_flatMap] at hxa
    obtain ⟨p, hpmem, hxe⟩ := hxa
    exact tileEntries_nonneg dims screen p hx hy x hxe
  have hoc : (assign_to_tiles dims prims screen).offset_and_count =
      (binLoop (dims.1 * dims.2) (-1) 0 0 0
        (sortAssigned (prims.flatMap (tileEntries dims screen)))).1 := rfl
  have hprims : (assign_to_tiles dims prims screen).primitives =
      (sortAssigned (prims.flatMap (tileEntries dims screen))).map
        AssignedTile.prim_index := by
    show (binLoop (dims.1 * dims.2) (-1) 0 0 0 _).2 = _
    exact binLoop_prims _ _ _ _ _ _
  rw [hoc] at hget
  obtain ⟨hcnt, hoff⟩ := binLoop_zero_spec (dims.1 * dims.2) _ hp h0 t e hget
  have hfilt := filter_sortAssigned ((t : Nat) : Int)
    (prims.flatMap (tileEntries dims screen))
  refine ⟨by rw [hcnt, hfilt], fun hpos => ?_⟩
  have hdecomp := sorted_decomp (sortAssigned (prims.flatMap (tileEntries dims screen)))
    ((t : Nat) : Int) hp
  have hmap : (sortAssigned (prims.flatMap (tileEntries dims screen))).map
      AssignedTile.prim_index =
      ((sortAssigned (prims.flatMap (tileEntries dims screen))).filter
        (fun x => decide (x.tile_index < (t : Int)))).map AssignedTile.prim_index ++
      (((sortAssigned (prims.flatMap (tileEntries dims screen))).filter
        (fun x => decide (x.tile_index = (t : Int)))).map AssignedTile.prim_index ++
      ((sortAssigned (prims.flatMap (tileEntries dims screen))).filter
        (fun x => decide ((t : Int) < x.tile_index))).map AssignedTile.prim_index) := by
    conv_lhs => rw [hdecomp]
    simp [List.map_append, List.append_assoc]
  rw [hprims, hoff hpos, hcnt, hmap]
  rw [List.drop_left' (by rw [List.length_map])]
  rw [List.take_left' (by rw [List.length_map])]
  exact congrArg (List.map AssignedTile.prim_index) hfilt

theorem binLoop_zero_len_lb (ocExtra : Nat) (l : List AssignedTile)
    (hp : l.Pairwise tileLE) (h0 : ∀ e ∈ l, 0 ≤ e.tile_index) :
    ∀ e ∈ l, e.tile_index.toNat < (binLoop ocExtra (-1) 0 0 0 l).1.length := by
  cases l with
  | nil => intro e he; cases he
  | cons a rest =>
    intro e he
    have ha0 : 0 ≤ a.tile_index := h0 a (List.mem_cons_self a rest)
    have hpa : ∀ x ∈ rest, a.tile_index ≤ x.tile_index := by
      intro x hx
      have := (List.pairwise_cons.mp hp).1 x hx
      simpa [tileLE] using this
    have hne : ¬ (a.tile_index = (-1 : Int)) := by omega
    simp only [binLoop, if_neg hne, if_neg (lt_irrefl 0), List.nil_append,
      List.length_append, List.length_replicate]
    have hpos := binLoop_oc_pos ocExtra rest a.tile_index 0 1 (0 + 1) (by omega)
    rw [List.mem_cons] at he
    rcases he with rfl | he
    · omega
    · have hlb := binLoop_len_lb ocExtra rest a.tile_index 0 1 (0 + 1) (by omega)
        (List.Pairwise.of_cons hp) hpa e he
      have hae := hpa e he
      omega

theorem getElem?_append_cons {α : Type} (u w : List α) (x : α) :
    (u ++ x :: w)[u.length]? = some x := by
  rw [List.getElem?_append_right (Nat.le_refl _)]
  simp

/-- C1 (amended): when every computed per-axis inclusive tile range stays
inside the grid, the offset/count table has exactly `tiles_x * tiles_y`
entries after a single `assign_to_tiles` call from empty buffers. -/
theorem keith_c1_tile_count (screen_size : Nat × Nat)
    (prims : List PreparedPrimitive)
    (hin : ∀ p ∈ prims,
      uvMaxX p.aabb ⟨(screen_size.1 : ℚ), (screen_size.2 : ℚ)⟩ <
        ((update_size_dimensions screen_size).1 : Int) ∧
      uvMaxY p.aabb ⟨(screen_size.1 : ℚ), (screen_size.2 : ℚ)⟩ <
        ((update_size_dimensions screen_size).2 : Int)) :
    (assign_to_tiles (update_size_dimensions screen_size) prims
        ⟨(screen_size.1 : ℚ), (screen_size.2 : ℚ)⟩).offset_and_count.length =
      (update_size_dimensions screen_size).1 *
        (update_size_dimensions screen_size).2 := by
  have hx : (0 : ℚ) ≤ (screen_size.1 : ℚ) := Nat.cast_nonneg _
  have hy : (0 : ℚ) ≤ (screen_size.2 : ℚ) := Nat.cast_nonneg _
  have hperm := sortAssigned_perm (prims.flatMap (tileEntries
    (update_size_dimensions screen_size) ⟨(screen_size.1 : ℚ), (screen_size.2 : ℚ)⟩))
  have hp := sortAssigned_sorted (prims.flatMap (tileEntries
    (update_size_dimensions screen_size) ⟨(screen_size.1 : ℚ), (screen_size.2 : ℚ)⟩))
  have hkeys : ∀ x ∈ sortAssigned (prims.flatMap (tileEntries
      (update_size_dimensions screen_size)
      ⟨(screen_size.1 : ℚ), (screen_size.2 : ℚ)⟩)),
      (-1 : Int) ≤ x.tile_index ∧ 0 ≤ x.tile_index ∧
        x.tile_index < (((update_size_dimensions screen_size).1 *
          (update_size_dimensions screen_size).2 : Nat) : Int) := by
    intro x hxs
    have hxa := hperm.mem_iff.mp hxs
    rw [List.mem_flatMap] at hxa
    obtain ⟨p, hpmem, hxe⟩ := hxa
    have h1 := tileEntries_nonneg _ _ p hx hy x hxe
    have h2 := tileEntries_lt _ _ p hx hy (hin p hpmem).1 (hin p hpmem).2 x hxe
    exact ⟨by omega, h1, h2⟩
  show (binLoop _ (-1) 0 0 0 _).1.length = _
  rw [binLoop_len _ _ (-1) 0 0 0 (Or.inr ⟨rfl, rfl⟩) hp hkeys (by omega)]
  have h1 : ((((update_size_dimensions screen_size).1 *
      (update_size_dimensions screen_size).2 : Nat) : Int) - (-1 + 1)).toNat =
      (update_size_dimensions screen_size).1 *
        (update_size_dimensions screen_size).2 := by
    omega
  rw [h1]
  simp

theorem keith_c1_tile_count_witness :
    (assign_to_tiles (update_size_dimensions (32, 64))
        [⟨⟨⟨8, 16⟩, ⟨16, 32⟩⟩, 7⟩] ⟨((32 : Nat) : ℚ), ((64 : Nat) : ℚ)⟩).offset_and_count.length =
      (update_size_dimensions (32, 64)).1 * (update_size_dimensions (32, 64)).2 :=
  keith_c1_tile_count (32, 64) [⟨⟨⟨8, 16⟩, ⟨16, 32⟩⟩, 7⟩]
    (by with_unfolding_all decide)

/-- C3: the tile-index sort of `assign_to_tiles` is stable, so within-tile
paint order is preserved: if sub-primitive A precedes sub-primitive B in
the input and both produce an entry for tile `t`, then tile `t`'s run in
`tile_primitives` lists A's packed index before B's. -/
theorem keith_c3_stability (dims : Nat × Nat) (screen : V2)
    (hx : 0 ≤ screen.x) (hy : 0 ≤ screen.y)
    (p₁ p₂ p₃ : List PreparedPrimitive) (A B : PreparedPrimitive) (t : Nat)
    (hA : ∃ e ∈ tileEntries dims screen A, e.tile_index = (t : Int))
    (hB : ∃ e ∈ tileEntries dims screen B, e.tile_index = (t : Int)) :
    ∃ oce, (assign_to_tiles dims (p₁ ++ A :: (p₂ ++ B :: p₃))
        screen).offset_and_count[t]? = some oce ∧
      ∃ i j : Nat, i < j ∧
        (((assign_to_tiles dims (p₁ ++ A :: (p₂ ++ B :: p₃))
            screen).primitives.drop oce.offset).take oce.count)[i]? =
          some A.prim_index ∧
        (((assign_to_tiles dims (p₁ ++ A :: (p₂ ++ B :: p₃))
            screen).primitives.drop oce.offset).take oce.count)[j]? =
          some B.prim_index := by
  obtain ⟨eA, hAmem, hAt⟩ := hA
  obtain ⟨eB, hBmem, hBt⟩ := hB
  have hAin : A ∈ p₁ ++ A :: (p₂ ++ B :: p₃) := by simp
  have hperm := sortAssigned_perm ((p₁ ++ A :: (p₂ ++ B :: p₃)).flatMap
    (tileEntries dims screen))
  have hp := sortAssigned_sorted ((p₁ ++ A :: (p₂ ++ B :: p₃)).flatMap
    (tileEntries dims screen))
  have h0 : ∀ x ∈ sortAssigned ((p₁ ++ A :: (p₂ ++ B :: p₃)).flatMap
      (tileEntries dims screen)), 0 ≤ x.tile_index := by
    intro x hxs
    have hxa := hperm.mem_iff.mp hxs
    rw [List.mem_flatMap] at hxa
    obtain ⟨p, hpmem, hxe⟩ := hxa
    exact tileEntries_nonneg dims screen p hx hy x hxe
  have hAassigned : eA ∈ (p₁ ++ A :: (p₂ ++ B :: p₃)).flatMap
      (tileEntries dims screen) := by
    rw [List.mem_flatMap]
    exact ⟨A, hAin, hAmem⟩
  have hAsorted : eA ∈ sortAssigned ((p₁ ++ A :: (p₂ ++ B :: p₃)).flatMap
      (tileEntries dims screen)) := hperm.mem_iff.mpr hAassigned
  have hlb := binLoop_zero_len_lb (dims.1 * dims.2) _ hp h0 eA hAsorted
  have hoclen : t < (assign_to_tiles dims (p₁ ++ A :: (p₂ ++ B :: p₃))
      screen).offset_and_count.length := by
    show t < (binLoop (dims.1 * dims.2) (-1) 0 0 0 _).1.length
    omega
  obtain ⟨oce, hoce⟩ : ∃ oce, (assign_to_tiles dims (p₁ ++ A :: (p₂ ++ B :: p₃))
      screen).offset_and_count[t]? = some oce :=
    ⟨_, List.getElem?_eq_getElem hoclen⟩
  obtain ⟨hcnt, hrun⟩ := assign_to_tiles_oc_spec dims _ screen hx hy t oce hoce
  have hAfil : eA ∈ ((p₁ ++ A :: (p₂ ++ B :: p₃)).flatMap
      (tileEntries dims screen)).filter
        (fun x => decide (x.tile_index = (t : Int))) := by
    rw [List.mem_filter]
    exact ⟨hAassigned, by simp [hAt]⟩
  have hcpos : 0 < oce.count := by
    rw [hcnt]
    exact List.length_pos.mpr (List.ne_nil_of_mem hAfil)
  have hrun' := hrun hcpos
  -- decompose the assigned list and its filtered sublist
  have hflat : ((p₁ ++ A :: (p₂ ++ B :: p₃)).flatMap (tileEntries dims screen)) =
      p₁.flatMap (tileEntries dims screen) ++ (tileEntries dims screen A ++
        (p₂.flatMap (tileEntries dims screen) ++ (tileEntries dims screen B ++
          p₃.flatMap (tileEntries dims screen)))) := by
    simp [List.flatMap_append, List.flatMap_cons]
  have hFAne : (tileEntries dims screen A).filter
      (fun x => decide (x.tile_index = (t : Int))) ≠ [] := by
    apply List.ne_nil_of_mem (a := eA)
    rw [List.mem_filter]
    exact ⟨hAmem, by simp [hAt]⟩
  have hFBne : (tileEntries dims screen B).filter
      (fun x => decide (x.tile_index = (t : Int))) ≠ [] := by
    apply List.ne_nil_of_mem (a := eB)
    rw [List.mem_filter]
    exact ⟨hBmem, by simp [hBt]⟩
  obtain ⟨xA, xsA, hFA⟩ := List.exists_cons_of_ne_nil hFAne
  obtain ⟨xB, xsB, hFB⟩ := List.exists_cons_of_ne_nil hFBne
  have hxA : xA.prim_index = A.prim_index := by
    apply tileEntries_prim dims screen A
    apply List.mem_of_mem_filter (p := fun x => decide (x.tile_index = (t : Int)))
    rw [hFA]
    exact List.mem_cons_self _ _
  have hxB : xB.prim_index = B.prim_index := by
    apply tileEntries_prim dims screen B
    apply List.mem_of_mem_filter (p := fun x => decide (x.tile_index = (t : Int)))
    rw [hFB]
    exact List.mem_cons_self _ _
  have hfil : (((p₁ ++ A :: (p₂ ++ B :: p₃)).flatMap (tileEntries dims screen)).filter
      (fun x => decide (x.tile_index = (t : Int)))) =
      (p₁.flatMap (tileEntries dims screen)).filter
        (fun x => decide (x.tile_index = (t : Int))) ++ (xA :: xsA ++
        ((p₂.flatMap (tileEntries dims screen)).filter
          (fun x => decide (x.tile_index = (t : Int))) ++ (xB :: xsB ++
          (p₃.flatMap (tileEntries dims screen)).filter
            (fun x => decide (x.tile_index = (t : Int)))))) := by
    rw [hflat]
    simp only [List.filter_append]
    rw [hFA, hFB]
  set M1 := ((p₁.flatMap (tileEntries dims screen)).filter
    (fun x => decide (x.tile_index = (t : Int)))).map AssignedTile.prim_index with hM1
  set M2 := ((p₂.flatMap (tileEntries dims screen)).filter
    (fun x => decide (x.tile_index = (t : Int)))).map AssignedTile.prim_index with hM2
  set M3 := ((p₃.flatMap (tileEntries dims screen)).filter
    (fun x => decide (x.tile_index = (t : Int)))).map AssignedTile.prim_index with hM3
  have hrun1 : ((assign_to_tiles dims (p₁ ++ A :: (p₂ ++ B :: p₃))
      screen).primitives.drop oce.offset).take oce.count =
      M1 ++ A.prim_index :: (xsA.map AssignedTile.prim_index ++
        (M2 ++ B.prim_index :: (xsB.map AssignedTile.prim_index ++ M3))) := by
    rw [hrun', hfil]
    simp [List.map_append, hxA, hxB]
  refine ⟨oce, hoce, M1.length,
    (M1 ++ A.prim_index :: (xsA.map AssignedTile.prim_index ++ M2)).length,
    by simp only [List.length_append, List.length_cons]; omega, ?_, ?_⟩
  · rw [hrun1]
    exact getElem?_append_cons _ _ _
  · have hrun2 : ((assign_to_tiles dims (p₁ ++ A :: (p₂ ++ B :: p₃))
        screen).primitives.drop oce.offset).take oce.count =
        (M1 ++ A.prim_index :: (xsA.map AssignedTile.prim_index ++ M2)) ++
          B.prim_index :: (xsB.map AssignedTile.prim_index ++ M3) := by
      rw [hrun1]
      simp [List.append_assoc]
    rw [hrun2]
    exact getElem?_append_cons _ _ _

theorem keith_c3_stability_witness :
    ∃ oce, (assign_to_tiles (4, 8)
        ([] ++ (⟨⟨⟨8, 16⟩, ⟨16, 32⟩⟩, 5⟩ : PreparedPrimitive) ::
          ([] ++ (⟨⟨⟨8, 16⟩, ⟨16, 32⟩⟩, 9⟩ : PreparedPrimitive) :: []))
        ⟨32, 64⟩).offset_and_count[9]? = some oce ∧
      ∃ i j : Nat, i < j ∧
        (((assign_to_tiles (4, 8)
            ([] ++ (⟨⟨⟨8, 16⟩, ⟨16, 32⟩⟩, 5⟩ : PreparedPrimitive) ::
              ([] ++ (⟨⟨⟨8, 16⟩, ⟨16, 32⟩⟩, 9⟩ : PreparedPrimitive) :: []))
            ⟨32, 64⟩).primitives.drop oce.offset).take oce.count)[i]? = some 5 ∧
        (((assign_to_tiles (4, 8)
            ([] ++ (⟨⟨⟨8, 16⟩, ⟨16, 32⟩⟩, 5⟩ : PreparedPrimitive) ::
              ([] ++ (⟨⟨⟨8, 16⟩, ⟨16, 32⟩⟩, 9⟩ : PreparedPrimitive) :: []))
            ⟨32, 64⟩).primitives.drop oce.offset).take oce.count)[j]? = some 9 :=
  keith_c3_stability (4, 8) ⟨32, 64⟩ (by norm_num) (by norm_num) [] [] []
    ⟨⟨⟨8, 16⟩, ⟨16, 32⟩⟩, 5⟩ ⟨⟨⟨8, 16⟩, ⟨16, 32⟩⟩, 9⟩ 9
    (by with_unfolding_all decide) (by with_unfolding_all decide)

theorem try_merge_canvas (b other : PrimitiveBatch) :
    (b.try_merge other).2.canvas_entity = b.canvas_entity := by
  unfold PrimitiveBatch.try_merge
  by_cases h : (b.is_handle_compatible other.image_handle_id &&
      (b.canvas_entity == other.canvas_entity)) = true
  · rw [if_pos h]
    by_cases h2 : b.image_handle_id == none <;> simp [h2]
  · rw [if_neg h]

theorem batchStep_spec {α : Type} (entity : Nat) (s : BatchState α)
    (sub : Option Nat × α)
    (h1 : s.pp_offset ≤ s.prepared.length)
    (h2 : s.current.is_empty = true → s.pp_offset = s.prepared.length) :
    (((batchStep entity s sub).emitted.map Prod.snd).flatten ++
        (batchStep entity s sub).prepared.drop (batchStep entity s sub).pp_offset =
      (s.emitted.map Prod.snd).flatten ++ s.prepared.drop s.pp_offset ++ [sub.2]) ∧
    (batchStep entity s sub).pp_offset ≤ (batchStep entity s sub).prepared.length ∧
    ((batchStep entity s sub).current.is_empty = true →
      (batchStep entity s sub).pp_offset =
        (batchStep entity s sub).prepared.length) := by
  have hdrop : (s.prepared ++ [sub.2]).drop s.pp_offset =
      s.prepared.drop s.pp_offset ++ [sub.2] :=
    List.drop_append_of_le_length h1
  unfold batchStep
  by_cases hm : (s.current.try_merge ⟨sub.1, some entity⟩).1 = true
  · have hcur : (s.current.try_merge ⟨sub.1, some entity⟩).2.is_empty = false := by
      unfold PrimitiveBatch.is_empty
      rw [try_merge_canvas]
      -- merge succeeded, so the canvas entities matched
      unfold PrimitiveBatch.try_merge at hm
      by_cases hcond : s.current.is_handle_compatible (⟨sub.1, some entity⟩ :
          PrimitiveBatch).image_handle_id &&
          (s.current.canvas_entity == (⟨sub.1, some entity⟩ :
            PrimitiveBatch).canvas_entity)
      · have := (Bool.and_eq_true _ _).mp hcond
        have hce : s.current.canvas_entity = some entity := by
          have h := this.2
          simpa using h
        simp [hce]
      · rw [if_neg hcond] at hm
        cases hm
    simp only [hm, if_true, hcur]
    refine ⟨?_, by simp; omega, by intro h; cases h⟩
    rw [hdrop, List.append_assoc]
  · simp only [hm, Bool.false_eq_true, if_false]
    by_cases he : s.current.is_empty = true
    · simp only [he, if_true]
      refine ⟨?_, by simp; omega, ?_⟩
      · dsimp only
        rw [hdrop, List.append_assoc]
      · intro h
        unfold PrimitiveBatch.is_empty at h
        simp at h
    · simp only [he]
      rw [if_neg (by simpa using he)]
      refine ⟨?_, by simp, ?_⟩
      · simp only [List.map_append, List.flatten_append]
        rw [List.drop_left]
        simp [List.append_assoc]
      · intro h
        unfold PrimitiveBatch.is_empty at h
        simp at h

theorem batch_foldl_spec {α : Type} (entity : Nat)
    (subs : List (Option Nat × α)) :
    ∀ (s : BatchState α),
      s.pp_offset ≤ s.prepared.length →
      (s.current.is_empty = true → s.pp_offset = s.prepared.length) →
      (((subs.foldl (batchStep entity) s).emitted.map Prod.snd).flatten ++
          (subs.foldl (batchStep entity) s).prepared.drop
            (subs.foldl (batchStep entity) s).pp_offset =
        (s.emitted.map Prod.snd).flatten ++ s.prepared.drop s.pp_offset ++
          subs.map Prod.snd) ∧
      (subs.foldl (batchStep entity) s).pp_offset ≤
        (subs.foldl (batchStep entity) s).prepared.length ∧
      ((subs.foldl (batchStep entity) s).current.is_empty = true →
        (subs.foldl (batchStep entity) s).pp_offset =
          (subs.foldl (batchStep entity) s).prepared.length) := by
  induction subs with
  | nil =>
    intro s hh1 hh2
    exact ⟨by simp, hh1, hh2⟩
  | cons sub rest ih =>
    intro s hh1 hh2
    rw [List.foldl_cons]
    obtain ⟨hs1, hs2, hs3⟩ := batchStep_spec entity s sub hh1 hh2
    obtain ⟨hi1, hi2, hi3⟩ := ih (batchStep entity s sub) hs2 hs3
    refine ⟨?_, hi2, hi3⟩
    rw [hi1, hs1]
    simp [List.append_assoc]

/-- C5: batch order preservation: concatenating the prepared payloads of
all emitted batches in emission order reproduces the input sub-primitive
stream exactly, each element once, with no reordering across batch
boundaries. -/
theorem keith_c5_batch_order (entity : Nat)
    (subs : List (Option Nat × PreparedPrimitive)) :
    ((batchRun entity subs).map Prod.snd).flatten = subs.map Prod.snd := by
  obtain ⟨hmain, hle, hemp⟩ := batch_foldl_spec entity subs
    ⟨.invalid, [], 0, []⟩ (le_refl 0) (fun _ => rfl)
  unfold batchRun batchFinish
  by_cases hcur : (subs.foldl (batchStep entity)
      (⟨.invalid, [], 0, []⟩ : BatchState PreparedPrimitive)).current.is_empty = true
  · rw [if_pos hcur]
    have hdrop : (subs.foldl (batchStep entity)
        (⟨.invalid, [], 0, []⟩ : BatchState PreparedPrimitive)).prepared.drop
        (subs.foldl (batchStep entity)
          (⟨.invalid, [], 0, []⟩ : BatchState PreparedPrimitive)).pp_offset = [] := by
      rw [hemp hcur]
      exact List.drop_length _
    rw [hdrop, List.append_nil] at hmain
    simpa using hmain
  · rw [if_neg hcur]
    simp only [List.map_append, List.flatten_append, List.map_cons, List.map_nil,
      List.flatten_cons, List.flatten_nil, List.append_nil]
    simpa using hmain

/-- C6: for batches of the same canvas, `try_merge` succeeds iff either
image handle is the invalid (untextured) wildcard or the two handles are
equal; an untextured sub-primitive never forces a batch break, two
differently-textured ones always do, and on a successful merge a wildcard
batch adopts the incoming handle. -/
theorem keith_c6_texture_wildcard (b other : PrimitiveBatch)
    (hc : b.canvas_entity = other.canvas_entity) :
    ((b.try_merge other).1 = true ↔
      (b.image_handle_id = none ∨ other.image_handle_id = none ∨
        b.image_handle_id = other.image_handle_id)) ∧
    (other.image_handle_id = none → (b.try_merge other).1 = true) ∧
    (∀ x y : Nat, b.image_handle_id = some x → other.image_handle_id = some y →
      x ≠ y → (b.try_merge other).1 = false) ∧
    (b.image_handle_id = none →
      (b.try_merge other).2.image_handle_id = other.image_handle_id) := by
  unfold PrimitiveBatch.try_merge PrimitiveBatch.is_handle_compatible
  rcases b with ⟨bi, bc⟩
  rcases other with ⟨oi, oc⟩
  simp only at hc
  subst hc
  rcases bi with _ | x <;> rcases oi with _ | y <;>
    simp_all [BEq.comm] <;> by_cases hxy : x = y <;> simp_all

theorem line_write_isSome (l : LinePrimitive) (n : Nat) (ct : V2) (sf : ℚ) :
    (l.write n ct sf).isSome ↔ n = l.info.row_count := by
  rcases Nat.lt_or_ge n 6 with h6 | h6
  · interval_cases n <;>
      by_cases hb : l.is_bordered <;>
        simp [LinePrimitive.write, LinePrimitive.info, wr, hb]
  · by_cases hb : l.is_bordered
    · by_cases h8 : n = 8
      · subst h8
        simp [LinePrimitive.write, wr, hb, LinePrimitive.info]
      · simp only [LinePrimitive.write, wr, List.length_replicate, List.length_set,
          show 0 < n by omega, show 1 < n by omega, show 2 < n by omega,
          show 3 < n by omega, show 4 < n by omega, show 5 < n by omega,
          if_true, Option.some_bind, hb, h8, if_false, LinePrimitive.info]
        simp [h8, hb]
    · by_cases hn : n = 6
      · subst hn
        simp [LinePrimitive.write, wr, hb, LinePrimitive.info]
      · simp only [LinePrimitive.write, wr, List.length_replicate, List.length_set,
          show 0 < n by omega, show 1 < n by omega, show 2 < n by omega,
          show 3 < n by omega, show 4 < n by omega, show 5 < n by omega,
          if_true, Option.some_bind, hb, hn, if_false, LinePrimitive.info]
        simp [hn, hb]

theorem line_write_complete (l : LinePrimitive) (n : Nat) (ct : V2) (sf : ℚ)
    (buf : List (Option Slot)) (h : l.write n ct sf = some buf) :
    buf.length = n ∧ ∀ i : Nat, i < n → ∃ s, buf[i]? = some (some s) := by
  have hn : n = l.info.row_count := by
    rw [← line_write_isSome l n ct sf, h]
    rfl
  by_cases hb : l.is_bordered
  · have h8 : n = 8 := by
      rw [hn]
      simp [LinePrimitive.info, hb]
    subst h8
    simp [LinePrimitive.write, wr, hb, List.replicate] at h
    subst h
    refine ⟨rfl, fun i hi => ?_⟩
    interval_cases i <;> exact ⟨_, rfl⟩
  · have h6 : n = 6 := by
      rw [hn]
      simp [LinePrimitive.info, hb]
    subst h6
    simp [LinePrimitive.write, wr, hb, List.replicate] at h
    subst h
    refine ⟨rfl, fun i hi => ?_⟩
    interval_cases i <;> exact ⟨_, rfl⟩

theorem rect_write_isSome (r : RectPrimitive) (n : Nat) (ct : V2) (sf : ℚ) :
    (r.write n ct sf).isSome ↔ n = r.row_count := by
  constructor
  · intro h
    by_contra hne
    simp [RectPrimitive.write, hne] at h
  · intro hn
    subst hn
    by_cases ht : r.is_textured <;> by_cases hb : r.is_bordered <;>
      simp [RectPrimitive.write, wr, ht, hb, RectPrimitive.row_count,
        RectPrimitive.ROW_COUNT_BASE, RectPrimitive.ROW_COUNT_TEX,
        RectPrimitive.ROW_COUNT_BORDER, List.replicate]

theorem rect_write_complete (r : RectPrimitive) (n : Nat) (ct : V2) (sf : ℚ)
    (buf : List (Option Slot)) (h : r.write n ct sf = some buf) :
    buf.length = n ∧ ∀ i : Nat, i < n → ∃ s, buf[i]? = some (some s) := by
  have hn : n = r.row_count := by
    rw [← rect_write_isSome r n ct sf, h]
    rfl
  by_cases ht : r.is_textured <;> by_cases hb : r.is_bordered
  · have hlit : n = 12 := by
      rw [hn]
      simp [RectPrimitive.row_count, RectPrimitive.ROW_COUNT_BASE,
        RectPrimitive.ROW_COUNT_TEX, RectPrimitive.ROW_COUNT_BORDER, ht, hb]
    subst hlit
    simp [RectPrimitive.write, wr, ht, hb, RectPrimitive.row_count,
      RectPrimitive.ROW_COUNT_BASE, RectPrimitive.ROW_COUNT_TEX,
      RectPrimitive.ROW_COUNT_BORDER, List.replicate] at h
    subst h
    refine ⟨rfl, fun i hi => ?_⟩
    interval_cases i <;> exact ⟨_, rfl⟩
  · have hlit : n = 10 := by
      rw [hn]
      simp [RectPrimitive.row_count, RectPrimitive.ROW_COUNT_BASE,
        RectPrimitive.ROW_COUNT_TEX, RectPrimitive.ROW_COUNT_BORDER, ht, hb]
    subst hlit
    simp [RectPrimitive.write, wr, ht, hb, RectPrimitive.row_count,
      RectPrimitive.ROW_COUNT_BASE, RectPrimitive.ROW_COUNT_TEX,
      RectPrimitive.ROW_COUNT_BORDER, List.replicate] at h
    subst h
    refine ⟨rfl, fun i hi => ?_⟩
    interval_cases i <;> exact ⟨_, rfl⟩
  · have hlit : n = 8 := by
      rw [hn]
      simp [RectPrimitive.row_count, RectPrimitive.ROW_COUNT_BASE,
        RectPrimitive.ROW_COUNT_TEX, RectPrimitive.ROW_COUNT_BORDER, ht, hb]
    subst hlit
    simp [RectPrimitive.write, wr, ht, hb, RectPrimitive.row_count,
      RectPrimitive.ROW_COUNT_BASE, RectPrimitive.ROW_COUNT_TEX,
      RectPrimitive.ROW_COUNT_BORDER, List.replicate] at h
    subst h
    refine ⟨rfl, fun i hi => ?_⟩
    interval_cases i <;> exact ⟨_, rfl⟩
  · have hlit : n = 6 := by
      rw [hn]
      simp [RectPrimitive.row_count, RectPrimitive.ROW_COUNT_BASE,
        RectPrimitive.ROW_COUNT_TEX, RectPrimitive.ROW_COUNT_BORDER, ht, hb]
    subst hlit
    simp [RectPrimitive.write, wr, ht, hb, RectPrimitive.row_count,
      RectPrimitive.ROW_COUNT_BASE, RectPrimitive.ROW_COUNT_TEX,
      RectPrimitive.ROW_COUNT_BORDER, List.replicate] at h
    subst h
    refine ⟨rfl, fun i hi => ?_⟩
    interval_cases i <;> exact ⟨_, rfl⟩

theorem rect_write_layout (r : RectPrimitive) (ct : V2) (sf : ℚ)
    (buf : List (Option Slot)) (ht : r.is_textured = true)
    (hb : r.is_bordered = true) (h : r.write 12 ct sf = some buf) :
    buf[6]? = some (some (.val (1/2))) ∧
    buf[10]? = some (some (.val (r.border_width * sf))) := by
  simp [RectPrimitive.write, wr, ht, hb, RectPrimitive.row_count,
    RectPrimitive.ROW_COUNT_BASE, RectPrimitive.ROW_COUNT_TEX,
    RectPrimitive.ROW_COUNT_BORDER, List.replicate] at h
  subst h
  constructor <;> norm_num

theorem qpie_write_isSome (q : QuarterPiePrimitive) (n : Nat) (ct : V2) (sf : ℚ) :
    (q.write n ct sf).isSome ↔ n = q.row_count := by
  constructor
  · intro h
    by_contra hne
    simp [QuarterPiePrimitive.write, hne] at h
  · intro hn
    subst hn
    simp [QuarterPiePrimitive.write, wr, QuarterPiePrimitive.row_count,
      List.replicate]

theorem qpie_write_complete (q : QuarterPiePrimitive) (n : Nat) (ct : V2) (sf : ℚ)
    (buf : List (Option Slot)) (h : q.write n ct sf = some buf) :
    buf.length = n ∧ ∀ i : Nat, i < n → ∃ s, buf[i]? = some (some s) := by
  have hn : n = 5 := by
    have := (qpie_write_isSome q n ct sf).mp (by rw [h]; rfl)
    simpa [QuarterPiePrimitive.row_count] using this
  subst hn
  simp [QuarterPiePrimitive.write, wr, QuarterPiePrimitive.row_count,
    List.replicate] at h
  subst h
  refine ⟨rfl, fun i hi => ?_⟩
  interval_cases i <;> exact ⟨_, rfl⟩

theorem textWriteGlyphs_success (rectMin ct : V2) (sf : ℚ) :
    ∀ (glyphs : List ExtractedGlyph) (ip : Nat) (buf : List (Option Slot)),
      ip + 10 * glyphs.length ≤ buf.length →
      ∃ out, textWriteGlyphs rectMin ct sf glyphs ip buf = some out ∧
        out.length = buf.length ∧
        (∀ i : Nat, ip ≤ i → i < ip + 10 * glyphs.length →
          ∃ s, out[i]? = some (some s)) ∧
        (∀ i : Nat, i < ip → out[i]? = buf[i]?) := by
  intro glyphs
  induction glyphs with
  | nil =>
    intro ip buf _
    refine ⟨buf, rfl, rfl, fun i h1 h2 => ?_, fun i _ => rfl⟩
    simp only [List.length_nil] at h2
    omega
  | cons g rest ih =>
    intro ip buf h
    simp only [List.length_cons] at h
    have h0 : ip + 0 < buf.length := by omega
    have h1 : ip + 1 < buf.length := by omega
    have h2 : ip + 2 < buf.length := by omega
    have h3 : ip + 3 < buf.length := by omega
    have h4 : ip + 4 < buf.length := by omega
    have h5 : ip + 5 < buf.length := by omega
    have h6 : ip + 6 < buf.length := by omega
    have h7 : ip + 7 < buf.length := by omega
    have h8 : ip + 8 < buf.length := by omega
    have h9 : ip + 9 < buf.length := by omega
    obtain ⟨out, hout, hlen, hcov, hpres⟩ := ih (ip + TextPrimitive.ROW_PER_GLYPH)
      (((((((((((buf.set (ip + 0) (some (.val (qround (g.offset.x + (rectMin.x + ct.x) * sf) + g.size.x / 2)))).set
        (ip + 1) (some (.val (qround (g.offset.y + (rectMin.y + ct.y) * sf) + g.size.y / 2)))).set
        (ip + 2) (some (.val (g.size.x / 2)))).set
        (ip + 3) (some (.val (g.size.y / 2)))).set
        (ip + 4) (some (.val 0))).set
        (ip + 5) (some (.color g.color))).set
        (ip + 6) (some (.val (g.uv_rect.min.x / 1024 + (g.uv_rect.max.x / 1024 - g.uv_rect.min.x / 1024) / 2)))).set
        (ip + 7) (some (.val (g.uv_rect.min.y / 1024 + (g.uv_rect.max.y / 1024 - g.uv_rect.min.y / 1024) / 2)))).set
        (ip + 8) (some (.val (1 / 1024)))).set
        (ip + 9) (some (.val (1 / 1024)))))
      (by
        simp only [List.length_set, TextPrimitive.ROW_PER_GLYPH,
          RectPrimitive.ROW_COUNT_BASE, RectPrimitive.ROW_COUNT_TEX]
        omega)
    refine ⟨out, ?_, ?_, ?_, ?_⟩
    · simp only [textWriteGlyphs, wr, List.length_set, h0, h1, h2, h3, h4,
        h5, h6, h7, h8, h9, if_true, Option.some_bind]
      exact hout
    · rw [hlen]
      simp [List.length_set]
    · intro i hge hlt
      by_cases hcase : ip + TextPrimitive.ROW_PER_GLYPH ≤ i
      · refine hcov i hcase ?_
        simp only [TextPrimitive.ROW_PER_GLYPH, RectPrimitive.ROW_COUNT_BASE,
          RectPrimitive.ROW_COUNT_TEX, List.length_cons] at hcase hlt ⊢
        omega
      · push_neg at hcase
        rw [hpres i (by
          simp only [TextPrimitive.ROW_PER_GLYPH, RectPrimitive.ROW_COUNT_BASE,
            RectPrimitive.ROW_COUNT_TEX] at hcase ⊢
          omega)]
        have hcase10 : i < ip + 10 := by
          simpa [TextPrimitive.ROW_PER_GLYPH, RectPrimitive.ROW_COUNT_BASE,
            RectPrimitive.ROW_COUNT_TEX] using hcase
        rcases (by omega : i = ip + 0 ∨ i = ip + 1 ∨ i = ip + 2 ∨ i = ip + 3 ∨ i = ip + 4 ∨ i = ip + 5 ∨ i = ip + 6 ∨ i = ip + 7 ∨ i = ip + 8 ∨ i = ip + 9) with hik|hik|hik|hik|hik|hik|hik|hik|hik|hik
        · rw [hik]
          rw [List.getElem?_set_ne (by omega)]
          rw [List.getElem?_set_ne (by omega)]
          rw [List.getElem?_set_ne (by omega)]
          rw [List.getElem?_set_ne (by omega)]
          rw [List.getElem?_set_ne (by omega)]
          rw [List.getElem?_set_ne (by omega)]
          rw [List.getElem?_set_ne (by omega)]
          rw [List.getElem?_set_ne (by omega)]
          rw [List.getElem?_set_ne (by omega)]
          rw [List.getElem?_set_self (by simp; omega)]
          exact ⟨_, rfl⟩
        · rw [hik]
          rw [List.getElem?_set_ne (by omega)]
          rw [List.getElem?_set_ne (by omega)]
          rw [List.getElem?_set_ne (by omega)]
          rw [List.getElem?_set_ne (by omega)]
          rw [List.getElem?_set_ne (by omega)]
          rw [List.getElem?_set_ne (by omega)]
          rw [List.getElem?_set_ne (by omega)]
          rw [List.getElem?_set_ne (by omega)]
          rw [List.getElem?_set_self (by simp; omega)]
          exact ⟨_, rfl⟩
        · rw [hik]
          rw [List.getElem?_set_ne (by omega)]
          rw [List.getElem?_set_ne (by omega)]
          rw [List.getElem?_set_ne (by omega)]
          rw [List.getElem?_set_ne (by omega)]
          rw [List.getElem?_set_ne (by omega)]
          rw [List.getElem?_set_ne (by omega)]
          rw [List.getElem?_set_ne (by omega)]
          rw [List.getElem?_set_self (by simp; omega)]
          exact ⟨_, rfl⟩
        · rw [hik]
          rw [List.getElem?_set_ne (by omega)]
          rw [List.getElem?_set_ne (by omega)]
          rw [List.getElem?_set_ne (by omega)]
          rw [List.getElem?_set_ne (by omega)]
          rw [List.getElem?_set_ne (by omega)]
          rw [List.getElem?_set_ne (by omega)]
          rw [List.getElem?_set_self (by simp; omega)]
          exact ⟨_, rfl⟩
        · rw [hik]
          rw [List.getElem?_set_ne (by omega)]
          rw [List.getElem?_set_ne (by omega)]
          rw [List.getElem?_set_ne (by omega)]
          rw [List.getElem?_set_ne (by omega)]
          rw [List.getElem?_set_ne (by omega)]
          rw [List.getElem?_set_self (by simp; omega)]
          exact ⟨_, rfl⟩
        · rw [hik]
          rw [List.getElem?_set_ne (by omega)]
          rw [List.getElem?_set_ne (by omega)]
          rw [List.getElem?_set_ne (by omega)]
          rw [List.getElem?_set_ne (by omega)]
          rw [List.getElem?_set_self (by simp; omega)]
          exact ⟨_, rfl⟩
        · rw [hik]
          rw [List.getElem?_set_ne (by omega)]
          rw [List.getElem?_set_ne (by omega)]
          rw [List.getElem?_set_ne (by omega)]
          rw [List.getElem?_set_self (by simp; omega)]
          exact ⟨_, rfl⟩
        · rw [hik]
          rw [List.getElem?_set_ne (by omega)]
          rw [List.getElem?_set_ne (by omega)]
          rw [List.getElem?_set_self (by simp; omega)]
          exact ⟨_, rfl⟩
        · rw [hik]
          rw [List.getElem?_set_ne (by omega)]
          rw [List.getElem?_set_self (by simp; omega)]
          exact ⟨_, rfl⟩
        · rw [hik]
          rw [List.getElem?_set_self (by simp; omega)]
          exact ⟨_, rfl⟩
    · intro i hip
      rw [hpres i (by
        simp only [TextPrimitive.ROW_PER_GLYPH, RectPrimitive.ROW_COUNT_BASE,
          RectPrimitive.ROW_COUNT_TEX]
        omega)]
      rw [List.getElem?_set_ne (by omega), List.getElem?_set_ne (by omega),
        List.getElem?_set_ne (by omega), List.getElem?_set_ne (by omega),
        List.getElem?_set_ne (by omega), List.getElem?_set_ne (by omega),
        List.getElem?_set_ne (by omega), List.getElem?_set_ne (by omega),
        List.getElem?_set_ne (by omega), List.getElem?_set_ne (by omega)]

theorem text_write_isSome (t : TextPrimitive) (texts : List ExtractedText)
    (n : Nat) (ct : V2) (sf : ℚ) (hid : t.id < texts.length) :
    (t.write texts n ct sf).isSome ↔
      n = (texts.getD t.id ⟨[]⟩).glyphs.length * TextPrimitive.ROW_PER_GLYPH := by
  obtain ⟨et, het⟩ : ∃ et, texts[t.id]? = some et :=
    ⟨_, List.getElem?_eq_getElem hid⟩
  have hgetD : texts.getD t.id ⟨[]⟩ = et := by
    rw [List.getD_eq_getElem?_getD, het]
    rfl
  unfold TextPrimitive.write
  rw [het, hgetD]
  dsimp only
  by_cases hn : n = et.glyphs.length * TextPrimitive.ROW_PER_GLYPH
  · rw [if_pos hn]
    subst hn
    obtain ⟨out, hout, -, -, -⟩ := textWriteGlyphs_success t.rect.min ct sf
      et.glyphs 0 (List.replicate (et.glyphs.length * TextPrimitive.ROW_PER_GLYPH)
        (none : Option Slot))
      (by
        simp only [List.length_replicate, TextPrimitive.ROW_PER_GLYPH,
          RectPrimitive.ROW_COUNT_BASE, RectPrimitive.ROW_COUNT_TEX]
        omega)
    rw [hout]
    simp
  · rw [if_neg hn]
    simp [hn]

theorem text_write_complete (t : TextPrimitive) (texts : List ExtractedText)
    (n : Nat) (ct : V2) (sf : ℚ) (buf : List (Option Slot))
    (h : t.write texts n ct sf = some buf) :
    buf.length = n ∧ ∀ i : Nat, i < n → ∃ s, buf[i]? = some (some s) := by
  unfold TextPrimitive.write at h
  cases het : texts[t.id]? with
  | none => rw [het] at h; cases h
  | some et =>
    rw [het] at h
    dsimp only at h
    by_cases hn : n = et.glyphs.length * TextPrimitive.ROW_PER_GLYPH
    · rw [if_pos hn] at h
      obtain ⟨out, hout, hlen, hcov, -⟩ := textWriteGlyphs_success t.rect.min ct sf
        et.glyphs 0 (List.replicate n (none : Option Slot))
        (by
          simp only [List.length_replicate, hn, TextPrimitive.ROW_PER_GLYPH,
            RectPrimitive.ROW_COUNT_BASE, RectPrimitive.ROW_COUNT_TEX]
          omega)
      rw [hout] at h
      injection h with h
      subst h
      refine ⟨by rw [hlen]; simp, fun i hi => ?_⟩
      refine hcov i (Nat.zero_le i) ?_
      simp only [hn, TextPrimitive.ROW_PER_GLYPH, RectPrimitive.ROW_COUNT_BASE,
        RectPrimitive.ROW_COUNT_TEX] at hi ⊢
      omega
    · rw [if_neg hn] at h
      cases h

theorem keith_c6_texture_wildcard_witness :
    ((⟨none, some 1⟩ : PrimitiveBatch).try_merge ⟨some 4, some 1⟩).1 = true ∧
    ((⟨none, some 1⟩ : PrimitiveBatch).try_merge
        ⟨some 4, some 1⟩).2.image_handle_id = some 4 :=
  ⟨(keith_c6_texture_wildcard ⟨none, some 1⟩ ⟨some 4, some 1⟩ rfl).1.mpr
     (Or.inl rfl),
   (keith_c6_texture_wildcard ⟨none, some 1⟩ ⟨some 4, some 1⟩ rfl).2.2.2 rfl⟩

/-- C7: row counts are Line = 6 plus 2 when bordered, Rect = 6 plus 4 when
textured plus 2 when bordered (texture rows before border rows),
QuarterPie = 5, one text glyph = 10; each `write` succeeds exactly on a
slice of `row_count` slots (glyph count times 10 for text), writes every
slot of it, and fails on any other slice length. -/
theorem keith_c7_row_count_exact (l : LinePrimitive) (r : RectPrimitive)
    (q : QuarterPiePrimitive) (t : TextPrimitive) (texts : List ExtractedText)
    (n : Nat) (ct : V2) (sf : ℚ) (hid : t.id < texts.length) :
    (l.info.row_count = 6 + if 0 < l.border_width then 2 else 0) ∧
    (r.row_count = 6 + (if r.image.isSome then 4 else 0) +
      if 0 < r.border_width then 2 else 0) ∧
    q.row_count = 5 ∧
    (t.info texts).row_count = 10 ∧
    ((l.write n ct sf).isSome ↔ n = l.info.row_count) ∧
    ((r.write n ct sf).isSome ↔ n = r.row_count) ∧
    ((q.write n ct sf).isSome ↔ n = q.row_count) ∧
    ((t.write texts n ct sf).isSome ↔
      n = (texts.getD t.id ⟨[]⟩).glyphs.length * 10) ∧
    (∀ buf, l.write n ct sf = some buf →
      buf.length = n ∧ ∀ i : Nat, i < n → ∃ s, buf[i]? = some (some s)) ∧
    (∀ buf, r.write n ct sf = some buf →
      buf.length = n ∧ ∀ i : Nat, i < n → ∃ s, buf[i]? = some (some s)) ∧
    (∀ buf, q.write n ct sf = some buf →
      buf.length = n ∧ ∀ i : Nat, i < n → ∃ s, buf[i]? = some (some s)) ∧
    (∀ buf, t.write texts n ct sf = some buf →
      buf.length = n ∧ ∀ i : Nat, i < n → ∃ s, buf[i]? = some (some s)) ∧
    (∀ buf, r.is_textured = true → r.is_bordered = true →
      r.write 12 ct sf = some buf →
      buf[6]? = some (some (.val (1/2))) ∧
      buf[10]? = some (some (.val (r.border_width * sf)))) := by
  refine ⟨?_, ?_, rfl, ?_, line_write_isSome l n ct sf,
    rect_write_isSome r n ct sf, qpie_write_isSome q n ct sf, ?_,
    fun buf h => line_write_complete l n ct sf buf h,
    fun buf h => rect_write_complete r n ct sf buf h,
    fun buf h => qpie_write_complete q n ct sf buf h,
    fun buf h => text_write_complete t texts n ct sf buf h,
    fun buf ht hb h => rect_write_layout r ct sf buf ht hb h⟩
  · simp [LinePrimitive.info, LinePrimitive.is_bordered]
  · simp [RectPrimitive.row_count, RectPrimitive.is_textured,
      RectPrimitive.is_bordered, RectPrimitive.ROW_COUNT_BASE,
      RectPrimitive.ROW_COUNT_TEX, RectPrimitive.ROW_COUNT_BORDER]
  · simp [TextPrimitive.info, hid, TextPrimitive.ROW_PER_GLYPH,
      RectPrimitive.ROW_COUNT_BASE, RectPrimitive.ROW_COUNT_TEX]
  · have h := text_write_isSome t texts n ct sf hid
    simpa [TextPrimitive.ROW_PER_GLYPH, RectPrimitive.ROW_COUNT_BASE,
      RectPrimitive.ROW_COUNT_TEX] using h

theorem keith_c7_row_count_exact_witness :
    ((⟨⟨0, 0⟩, ⟨1, 0⟩, 5, 1, 0, 6⟩ : LinePrimitive).write 6 ⟨0, 0⟩ 1).isSome = true ∧
    ((⟨⟨⟨0, 0⟩, ⟨2, 2⟩⟩, 0, 7, none, ⟨1, 1⟩, false, false, 0, 8⟩ :
        RectPrimitive).write 6 ⟨0, 0⟩ 1).isSome = true ∧
    ¬ ((⟨⟨0, 0⟩, ⟨1, 1⟩, 9, false, false⟩ :
        QuarterPiePrimitive).write 6 ⟨0, 0⟩ 1).isSome ∧
    (TextPrimitive.info ⟨0, ⟨⟨0, 0⟩, ⟨4, 4⟩⟩⟩ [⟨[]⟩]).row_count = 10 := by
  have h := keith_c7_row_count_exact ⟨⟨0, 0⟩, ⟨1, 0⟩, 5, 1, 0, 6⟩
    ⟨⟨⟨0, 0⟩, ⟨2, 2⟩⟩, 0, 7, none, ⟨1, 1⟩, false, false, 0, 8⟩
    ⟨⟨0, 0⟩, ⟨1, 1⟩, 9, false, false⟩ ⟨0, ⟨⟨0, 0⟩, ⟨4, 4⟩⟩⟩ [⟨[]⟩] 6 ⟨0, 0⟩ 1
    (by decide)
  refine ⟨h.2.2.2.2.1.mpr (by with_unfolding_all decide),
    h.2.2.2.2.2.1.mpr (by with_unfolding_all decide), fun hq => ?_, h.2.2.2.1⟩
  exact absurd (h.2.2.2.2.2.2.1.mp hq) (by decide)

/-- C8: a `TextPrimitive` whose id is out of range of the resolved texts
reports zero rows and zero sub-primitives and enumerates no glyph
sub-primitives; an in-range text with no resolved glyphs contributes zero
sub-primitives and zero encoded rows; both cases are skipped without
failure. -/
theorem keith_c8_missing_text (t : TextPrimitive) (texts : List ExtractedText)
    (inv_sf : ℚ) :
    (texts.length ≤ t.id →
      t.info texts = ⟨0, 0⟩ ∧
      textSubPrims t texts inv_sf = [] ∧
      totalRowCount (t.info texts) = 0) ∧
    (∀ et, texts[t.id]? = some et → et.glyphs = [] →
      (t.info texts).sub_prim_count = 0 ∧
      totalRowCount (t.info texts) = 0 ∧
      textSubPrims t texts inv_sf = []) := by
  constructor
  · intro hle
    have hnone : texts[t.id]? = none := List.getElem?_eq_none hle
    have hinfo : t.info texts = ⟨0, 0⟩ := by
      unfold TextPrimitive.info
      rw [if_neg (by omega)]
    refine ⟨hinfo, ?_, by rw [hinfo]; rfl⟩
    unfold textSubPrims
    rw [hnone]
  · intro et het hg
    have hid : t.id < texts.length := by
      by_contra hcon
      rw [List.getElem?_eq_none (by omega)] at het
      cases het
    have hgetD : texts.getD t.id ⟨[]⟩ = et := by
      rw [List.getD_eq_getElem?_getD, het]
      rfl
    have hinfo : t.info texts = ⟨TextPrimitive.ROW_PER_GLYPH, 0⟩ := by
      unfold TextPrimitive.info
      rw [if_pos hid, hgetD, hg]
      rfl
    refine ⟨by rw [hinfo], by rw [hinfo]; rfl, ?_⟩
    unfold textSubPrims
    rw [het]
    dsimp only
    rw [hg]
    rfl

theorem keith_c8_missing_text_witness :
    TextPrimitive.info ⟨3, ⟨⟨0, 0⟩, ⟨4, 4⟩⟩⟩ [⟨[]⟩] = ⟨0, 0⟩ ∧
    textSubPrims ⟨3, ⟨⟨0, 0⟩, ⟨4, 4⟩⟩⟩ [⟨[]⟩] 1 = [] ∧
    (TextPrimitive.info ⟨0, ⟨⟨0, 0⟩, ⟨4, 4⟩⟩⟩ [⟨[]⟩]).sub_prim_count = 0 ∧
    totalRowCount (TextPrimitive.info ⟨0, ⟨⟨0, 0⟩, ⟨4, 4⟩⟩⟩ [⟨[]⟩]) = 0 ∧
    textSubPrims ⟨0, ⟨⟨0, 0⟩, ⟨4, 4⟩⟩⟩ [⟨[]⟩] 1 = [] := by
  obtain ⟨h1, h2, h3⟩ :=
    (keith_c8_missing_text ⟨3, ⟨⟨0, 0⟩, ⟨4, 4⟩⟩⟩ [⟨[]⟩] 1).1 (by decide)
  obtain ⟨h4, h5, h6⟩ :=
    (keith_c8_missing_text ⟨0, ⟨⟨0, 0⟩, ⟨4, 4⟩⟩⟩ [⟨[]⟩] 1).2 ⟨[]⟩ rfl rfl
  exact ⟨h1, h2, h4, h5, h6⟩
